import Mathlib

/-!
Shallow embedding of the `kiri` renderer core (generational handle pool,
bump / ring / free-list / bucketed-slab allocators, frame temp allocator,
drop list, and the asset material dependency collector), together with
theorems checking the specification's claims against this embedding.

Conventions used throughout:
* Rust machine integers (`u32`, `usize`) are embedded as `Nat`; where
  two's-complement truncation matters it is written explicitly as
  `% 2^32` / bit masks over `2^32` resp. `2^64`.
* A Rust `Vec` used as a stack (`push`/`pop` at the back) is embedded as a
  `List` whose HEAD is the top of the stack, so `pop` is pattern matching
  on `x :: rest` and `push x` is `x :: rest`.
* A Rust function that can `panic!` / fail an `assert!` / `unwrap` on `None`
  is embedded as an `Option`-returning function whose `none` means "panics";
  recoverable `Option`/`Result` values of the source appear inside it.
-/

namespace Kiri

/-! ## Alignment helpers

`memory.rs` has `fn align(value: usize, align: usize)` and `lib.rs` has the
`Align` trait with identical bodies for `u32`/`u64`/`usize`:
`if value == 0 || value % align == 0 { value } else { (value & !(align-1)) + align }`.
The complement `!(align - 1)` is a `w`-bit operation, embedded as the mask
`2^w - align`. -/

/-- `w`-bit version of the kiri rounding helper
`if value == 0 || value % align == 0 { value } else { (value & !(align-1)) + align }`. -/
def alignBits (w value a : Nat) : Nat :=
  if value = 0 ∨ value % a = 0 then value else (value &&& (2 ^ w - a)) + a

/-- `fn align(value: usize, align: usize)` from `memory.rs` (64-bit `usize`),
also `<usize as Align>::align` from `lib.rs`. -/
def align (value a : Nat) : Nat := alignBits 64 value a

/-- `<u32 as Align>::align` from `lib.rs`. -/
def alignU32 (value a : Nat) : Nat := alignBits 32 value a

/-! ## Generational handle pool (`handle.rs`)

`Handle<T, U>` packs a 20-bit index and a 12-bit generation into a `u32`
(`data`); the phantom type parameters do not affect behaviour and are not
part of the embedding.  `Handle::new`'s two `assert!`s are the `none`
result.  A `Pool`'s panicking `Vec` indexing appears as `List.getD`; in
every state satisfying `PoolInv` the indices in question are in range, so
the default is never consulted. -/

def GENERATION_BITS : Nat := 12

def INDEX_BITS : Nat := 32 - GENERATION_BITS

def INDEX_MASK : Nat := (1 <<< INDEX_BITS) - 1

def GENERATION_MASK : Nat := (2 ^ 32 - 1) - INDEX_MASK

def MAX_INDEX : Nat := (1 <<< INDEX_BITS) - 1

def MAX_GENERATION : Nat := 1 <<< GENERATION_BITS

structure Handle where
  data : Nat
deriving DecidableEq, Repr

def Handle.new (index generation : Nat) : Option Handle :=
  if index < MAX_INDEX ∧ generation < MAX_GENERATION then
    some ⟨(generation <<< INDEX_BITS) ||| index⟩
  else none

def Handle.invalid : Handle := ⟨2 ^ 32 - 1⟩

def Handle.is_valid (h : Handle) : Bool := h.data ≠ 2 ^ 32 - 1

def Handle.index (h : Handle) : Nat := h.data &&& INDEX_MASK

def Handle.generation (h : Handle) : Nat := (h.data &&& GENERATION_MASK) >>> INDEX_BITS

structure Pool (T U : Type) where
  hot : List (Option T)
  cold : List (Option U)
  generations : List Nat
  empty : List Nat
deriving DecidableEq, Repr

variable {T U : Type}

def Pool.new : Pool T U := ⟨[], [], [], []⟩

def Pool.is_handle_valid (p : Pool T U) (h : Handle) : Bool :=
  decide (h.index < p.generations.length) && (p.generations.getD h.index 0 == h.generation)

/-- `Pool::push`.  `none` is the "Too many items" panic or a failed
`Handle::new` assertion. -/
def Pool.push (p : Pool T U) (hot : T) (cold : U) : Option (Handle × Pool T U) :=
  match p.empty with
  | slot :: rest =>
    match Handle.new slot (p.generations.getD slot 0) with
    | some h =>
      some (h, { hot := p.hot.set slot (some hot), cold := p.cold.set slot (some cold),
                 generations := p.generations, empty := rest })
    | none => none
  | [] =>
    if p.generations.length = 2 ^ 32 - 1 then none
    else
      match Handle.new p.generations.length 0 with
      | some h =>
        some (h, { hot := p.hot ++ [some hot], cold := p.cold ++ [some cold],
                   generations := p.generations ++ [0], empty := [] })
      | none => none

/-- `Pool::get`: `some none` is Rust's `None` (invalid handle), the outer
`none` is the `unwrap` panic on a vacated slot that still matches by
generation (impossible for handles returned by `push`). -/
def Pool.get (p : Pool T U) (h : Handle) : Option (Option (T × U)) :=
  if p.is_handle_valid h then
    match p.hot.getD h.index none, p.cold.getD h.index none with
    | some a, some b => some (some (a, b))
    | _, _ => none
  else some none

def Pool.get_hot (p : Pool T U) (h : Handle) : Option (Option T) :=
  if p.is_handle_valid h then
    match p.hot.getD h.index none with
    | some a => some (some a)
    | none => none
  else some none

def Pool.get_cold (p : Pool T U) (h : Handle) : Option (Option U) :=
  if p.is_handle_valid h then
    match p.cold.getD h.index none with
    | some b => some (some b)
    | none => none
  else some none

/-- `Pool::replace` (in-place update keeping slot and generation). -/
def Pool.replace (p : Pool T U) (h : Handle) (hot : T) (cold : U) :
    Option (Option (T × U) × Pool T U) :=
  if p.is_handle_valid h then
    match p.hot.getD h.index none, p.cold.getD h.index none with
    | some a, some b =>
      some (some (a, b),
        { p with hot := p.hot.set h.index (some hot), cold := p.cold.set h.index (some cold) })
    | _, _ => none
  else some (none, p)

/-- `Pool::remove`: vacates the slot, bumps the generation with
`wrapping_add(1) % MAX_GENERATION`, and pushes the index on the free
stack. -/
def Pool.remove (p : Pool T U) (h : Handle) : Option (Option (T × U) × Pool T U) :=
  if p.is_handle_valid h then
    match p.hot.getD h.index none, p.cold.getD h.index none with
    | some a, some b =>
      some (some (a, b),
        { hot := p.hot.set h.index none, cold := p.cold.set h.index none,
          generations := p.generations.set h.index
            (((p.generations.getD h.index 0 + 1) % 2 ^ 32) % MAX_GENERATION),
          empty := h.index :: p.empty })
    | _, _ => none
  else some (none, p)

/-- One public mutating operation on a pool. -/
inductive PoolOp (T U : Type) where
  | push (hot : T) (cold : U)
  | replace (h : Handle) (hot : T) (cold : U)
  | remove (h : Handle)

def Pool.step (p : Pool T U) : PoolOp T U → Option (Pool T U)
  | PoolOp.push h c => (p.push h c).map Prod.snd
  | PoolOp.replace hd h c => (p.replace hd h c).map Prod.snd
  | PoolOp.remove hd => (p.remove hd).map Prod.snd

def Pool.runOps (p : Pool T U) : List (PoolOp T U) → Option (Pool T U)
  | [] => some p
  | op :: ops =>
    match p.step op with
    | some q => q.runOps ops
    | none => none

/-- States reachable from `Pool::new()` by panic-free sequences of `push`,
`replace` and `remove`. -/
def Pool.Reachable (p : Pool T U) : Prop :=
  ∃ ops, Pool.runOps Pool.new ops = some p

/-- The pool's representation invariant: parallel arrays of equal length,
at most `MAX_INDEX` slots, in-range generations, and a duplicate-free free
stack of vacated in-range slots. -/
def PoolInv (p : Pool T U) : Prop :=
  p.hot.length = p.generations.length ∧
  p.cold.length = p.generations.length ∧
  p.generations.length ≤ MAX_INDEX ∧
  (∀ g ∈ p.generations, g < MAX_GENERATION) ∧
  (∀ e ∈ p.empty,
    e < p.generations.length ∧ p.hot.getD e none = none ∧ p.cold.getD e none = none) ∧
  p.empty.Nodup

/-- The number of `remove` operations aimed at slot `i` in a list of
operations (an upper bound on how often slot `i`'s generation can move). -/
def countRemoveOps (i : Nat) : List (PoolOp T U) → Nat
  | [] => 0
  | PoolOp.remove h :: rest => (if h.index = i then 1 else 0) + countRemoveOps i rest
  | _ :: rest => countRemoveOps i rest

/-- 4096 push/remove cycles on slot 0: cycle `k` pushes (obtaining the
handle with index 0 and generation `k`, i.e. data `k <<< 20`) and removes
that handle again. -/
def c1Ops : List (PoolOp Nat Nat) :=
  ((List.range 4096).map (fun k => [PoolOp.push 7 7, PoolOp.remove ⟨k <<< 20⟩])).flatten

/-! ## `DynamicAllocator` (memory.rs)

`Block` mirrors `enum Block { Free(BlockData), Used(BlockData) }` with
`BlockData(offset, size)`; `Vec<Block>` is a `List Block` in order.  The
panicking paths (the `assert!(size <= block.1)` in the two split helpers
and the explicit `panic!` in `deallocate`) are the outer `none`.  The two
loops of `merge_free_blocks` are embedded as `walkBack` (the backtracking
first loop, stepping over `blocks.get(index - 1)` while it is `Free`) and
`mergeForward` (the second loop, which repeatedly folds `blocks[index]`
with `blocks[index + 1]` and removes the latter; it only ever rewrites
the suffix starting at `index` and consumes one list element per
iteration, so `blocks.length` is always enough fuel -- see
`mergeForward_fuel_irrelevant`). -/

inductive Block where
  | Free (offset size : Nat)
  | Used (offset size : Nat)
deriving DecidableEq, Repr

def isFree : Block → Bool
  | .Free _ _ => true
  | .Used _ _ => false

def blockLen : Block → Nat
  | .Free _ s => s
  | .Used _ s => s

def blockSum (blocks : List Block) : Nat := (blocks.map blockLen).sum

structure DynamicAllocator where
  granularity : Nat
  blocks : List Block
deriving DecidableEq, Repr

def DynamicAllocator.new (size granularity : Nat) : DynamicAllocator :=
  { granularity := granularity, blocks := [Block.Free 0 size] }

/-- `find_used_block`: index of the first `Used` block at exactly `offset`. -/
def find_used_block (offset : Nat) : List Block → Option Nat
  | [] => none
  | Block.Used o _ :: rest =>
      if o = offset then some 0 else (find_used_block offset rest).map (· + 1)
  | Block.Free _ _ :: rest => (find_used_block offset rest).map (· + 1)

/-- `find_first_free_block`: index of the first `Free` block with
`block.1 >= size` (the raw, unaligned request). -/
def find_first_free_block (size : Nat) : List Block → Option Nat
  | [] => none
  | Block.Free _ len :: rest =>
      if size ≤ len then some 0 else (find_first_free_block size rest).map (· + 1)
  | Block.Used _ _ :: rest => (find_first_free_block size rest).map (· + 1)

/-- `find_last_free_block`: index of the last `Free` block with
`block.1 >= size` (the `.rev()` search). -/
def find_last_free_block (size : Nat) : List Block → Option Nat
  | [] => none
  | b :: rest =>
    ((find_last_free_block size rest).map (· + 1)).or
      (match b with
       | Block.Free _ len => if size ≤ len then some 0 else none
       | Block.Used _ _ => none)

/-- `blocks.get(i)` is a `Free` block. -/
def freeAt (blocks : List Block) (i : Nat) : Bool :=
  match blocks[i]? with
  | some (Block.Free _ _) => true
  | _ => false

/-- First loop of `merge_free_blocks`: decrement `index` while the previous
block exists and is `Free`. -/
def walkBack (blocks : List Block) : Nat → Nat
  | 0 => 0
  | i + 1 => if freeAt blocks i then walkBack blocks i else i + 1

/-- Second loop of `merge_free_blocks`, acting on the suffix that starts at
`index`: while the first two blocks of the suffix are both `Free`, replace
them by one `Free` block at the first one's offset with the summed size
(`blocks[index] = Free(block.0, block.1 + next.1); blocks.remove(index+1)`). -/
def mergeForward : Nat → List Block → List Block
  | fuel + 1, Block.Free o l :: Block.Free _ l2 :: rest =>
      mergeForward fuel (Block.Free o (l + l2) :: rest)
  | _, bs => bs

def merge_free_blocks (blocks : List Block) (index : Nat) : List Block :=
  blocks.take (walkBack blocks index) ++
    mergeForward blocks.length (blocks.drop (walkBack blocks index))

def DynamicAllocator.split_and_insert_block (d : DynamicAllocator) (index size : Nat) :
    Option (Option Nat × DynamicAllocator) :=
  let size := align size d.granularity
  match d.blocks[index]? with
  | some (Block.Free o len) =>
      if size ≤ len then
        let new_size := len - size
        some (some o,
          { d with blocks :=
              if 0 < new_size then
                (List.insertIdx (index + 1) (Block.Free (o + size) new_size)
                  (d.blocks.set index (Block.Used o size)))
              else d.blocks.set index (Block.Used o size) })
      else none
  | _ => some (none, d)

def DynamicAllocator.split_and_insert_block_end (d : DynamicAllocator) (index size : Nat) :
    Option (Option Nat × DynamicAllocator) :=
  let size := align size d.granularity
  match d.blocks[index]? with
  | some (Block.Free o len) =>
      if size ≤ len then
        let split := len - size
        some (some (o + split),
          { d with blocks :=
              if 0 < split then
                (List.insertIdx index (Block.Free o split)
                  (d.blocks.set index (Block.Used (o + split) size)))
              else d.blocks.set index (Block.Used (o + split) size) })
      else none
  | _ => some (none, d)

def DynamicAllocator.allocate (d : DynamicAllocator) (size : Nat) :
    Option (Option Nat × DynamicAllocator) :=
  match find_first_free_block size d.blocks with
  | some index => d.split_and_insert_block index size
  | none => some (none, d)

def DynamicAllocator.allocate_back (d : DynamicAllocator) (size : Nat) :
    Option (Option Nat × DynamicAllocator) :=
  match find_last_free_block size d.blocks with
  | some index => d.split_and_insert_block_end index size
  | none => some (none, d)

def DynamicAllocator.deallocate (d : DynamicAllocator) (offset : Nat) :
    Option DynamicAllocator :=
  match find_used_block offset d.blocks with
  | some index =>
    match d.blocks[index]? with
    | some (Block.Used o len) =>
        some { d with
          blocks := merge_free_blocks (d.blocks.set index (Block.Free o len)) index }
    | _ => none
  | none => none

/-- Decidable check that no two adjacent blocks are both `Free`. -/
def noAdjFree : List Block → Bool
  | [] => true
  | [_] => true
  | a :: b :: rest => (!(isFree a && isFree b)) && noAdjFree (b :: rest)

/-- Relational form of the adjacency condition, for `List.Chain'`. -/
def NotBothFree (a b : Block) : Prop := isFree a = false ∨ isFree b = false

/-- Public operations of `DynamicAllocator`. -/
inductive DynOp where
  | alloc (size : Nat)
  | allocBack (size : Nat)
  | dealloc (offset : Nat)
deriving DecidableEq, Repr

def DynamicAllocator.step (d : DynamicAllocator) : DynOp → Option DynamicAllocator
  | .alloc s => (d.allocate s).map Prod.snd
  | .allocBack s => (d.allocate_back s).map Prod.snd
  | .dealloc o => d.deallocate o

def DynamicAllocator.runOps (d : DynamicAllocator) : List DynOp → Option DynamicAllocator
  | [] => some d
  | op :: ops =>
    match d.step op with
    | none => none
    | some d2 => DynamicAllocator.runOps d2 ops

/-- Region-size invariant paired with the merge invariant. -/
def DynInv (S : Nat) (d : DynamicAllocator) : Prop :=
  blockSum d.blocks = S ∧ List.Chain' NotBothFree d.blocks

/-- All block sizes are multiples of `g`. -/
def DvdInv (g : Nat) (d : DynamicAllocator) : Prop :=
  ∀ b ∈ d.blocks, g ∣ blockLen b

/-! ## `RingAllocator` (memory.rs)

The atomic CAS retry loop is embedded sequentially: with a single caller the
compare-exchange succeeds on the first attempt, so `allocate` is a plain
state transition on `head`.  The `assert!(size <= self.size)` panic is the
`none` result. -/

structure RingAllocator where
  size : Nat
  aligment : Nat
  head : Nat
deriving DecidableEq, Repr

def RingAllocator.new (size aligment : Nat) : RingAllocator :=
  { size := size, aligment := aligment, head := 0 }

def RingAllocator.allocate (r : RingAllocator) (size : Nat) : Option (Nat × RingAllocator) :=
  if size ≤ r.size then
    let aligned_size := align size r.aligment
    let ep := r.head + aligned_size
    if ep > r.size then some (0, { r with head := aligned_size })
    else some (r.head, { r with head := ep })
  else none

/-! ## `BumpAllocator` (memory.rs) -/

structure BumpAllocator where
  size : Nat
  top : Nat
  aligment : Nat
deriving DecidableEq, Repr

def BumpAllocator.new (size aligment : Nat) : BumpAllocator :=
  { size := size, top := 0, aligment := aligment }

/-- `BumpAllocator::allocate`; returns the offset (or `none` when the aligned
base plus the request would exceed the capacity) together with the updated
allocator (unchanged in the failure case). -/
def BumpAllocator.allocate (b : BumpAllocator) (size : Nat) : Option Nat × BumpAllocator :=
  if align b.top b.aligment + size > b.size then (none, b)
  else (some (align b.top b.aligment), { b with top := align b.top b.aligment + size })

def BumpAllocator.reset (b : BumpAllocator) : BumpAllocator := { b with top := 0 }

/-! ## `BlockAllocator` (memory.rs)

`empty` is `(0..chunk_count).rev().collect()` popped from the back, i.e. the
slots are handed out in the order `0, 1, 2, …`; with the head-of-list-as-top
convention the initial stack is `List.range chunk_count`. -/

structure BlockAllocator where
  chunk_size : Nat
  chunk_count : Nat
  empty : List Nat
deriving DecidableEq, Repr

def BlockAllocator.new (chunk_size chunk_count : Nat) : BlockAllocator :=
  { chunk_size := chunk_size, chunk_count := chunk_count, empty := List.range chunk_count }

def BlockAllocator.allocate (b : BlockAllocator) : Option Nat × BlockAllocator :=
  match b.empty with
  | slot :: rest => (some (slot * b.chunk_size), { b with empty := rest })
  | [] => (none, b)

/-- `BlockAllocator::dealloc`; the two `assert!`s are the `none` result. -/
def BlockAllocator.dealloc (b : BlockAllocator) (offset : Nat) : Option BlockAllocator :=
  let index := offset / b.chunk_size
  if index < b.chunk_count ∧ offset % b.chunk_size = 0 ∧ index ∉ b.empty then
    some { b with empty := index :: b.empty }
  else none

/-! ## Frame temp-memory allocator (`frame.rs`)

Only the temp-region cursor takes part in the `push_temp` logic; the
command pool, command buffers, semaphore, mapped Vulkan buffer and the
frame's drop list are device-side resources that do not affect it and are
not part of this embedding.  `temp_top` is an `AtomicU32`; the
`fetch_update` is embedded sequentially (it returns the previous value on
success and leaves the cursor untouched on failure). -/

def MAX_TEMP_MEMORY : Nat := 16 * 1024 * 1024

def ALIGMENT : Nat := 256

inductive RenderError where
  | outOfTempMemory
  | outOfAllocatedSpace
deriving DecidableEq, Repr

deriving instance DecidableEq for Except

structure Frame where
  temp_top : Nat
deriving DecidableEq, Repr

/-- `Frame::allocate`: the closure of the `fetch_update`, with the `u32`
addition written as `% 2^32`. -/
def Frame.allocate (f : Frame) (size : Nat) : Option (Nat × Frame) :=
  let new_top := alignU32 ((f.temp_top + size) % 2 ^ 32) ALIGMENT
  if new_top ≤ MAX_TEMP_MEMORY then some (f.temp_top, { f with temp_top := new_top })
  else none

/-- `Frame::push_temp`, with `bytes as u32` embedded as `% 2^32`; the memcpy
into the mapped region affects only device-visible bytes, not the cursor. -/
def Frame.push_temp (f : Frame) (bytes : Nat) : Except RenderError Nat × Frame :=
  match f.allocate (bytes % 2 ^ 32) with
  | some (offset, f') => (Except.ok offset, f')
  | none => (Except.error RenderError.outOfTempMemory, f)

/-! ## `PbrMaterial` dependency collection (`kiri-assets/src/material.rs`)

An `AssetRef` wraps a `Uuid` (`u128`), embedded as `Nat`; the nil uuid is `0`
and `AssetRef::valid` is "not nil".  The `blend : BlendMode` and
`emission_value : f32` fields play no role in `collect_dependencies` and are
omitted.  `HashSet<AssetRef>` is embedded as `Finset Nat`. -/

def AssetRef.valid (r : Nat) : Bool := r ≠ 0

/-! ## `UniformStorage` — the bucketed slab (`uniforms.rs`)

The Vulkan buffer, the mapped pointer and the `GpuMemory` block are
device-side and take no part in the offset bookkeeping; the payload memcpy
writes through the mapping at the returned offset.  The two `ArrayVec`s are
embedded as lists (the `BUCKET_COUNT` capacity of `buckets` is enforced by
the explicit length test in `allocate_bucket`, exactly as in the source).
`Bucket::default()` is `bucketDefault`.  The Rust field `from` is a
reserved word in Lean and is embedded as `from_`. -/

def BUCKET_SIZE : Nat := 0xFFFF

def MIN_UNIFORM_SIZE : Nat := 0x100

def MAX_UNIFORM_SIZE : Nat := 0x4000

def UNIFORM_BUFFER_SIZE : Nat := 8 * 1024 * 1024

def BUCKET_COUNT : Nat := UNIFORM_BUFFER_SIZE / BUCKET_SIZE

def SIZE_RANGES : List (Nat × Nat) :=
  [(8192, 16384), (4096, 8192), (2048, 4096), (1024, 2048), (512, 1024), (256, 512), (0, 256)]

structure Bucket where
  from_ : Nat
  to_ : Nat
  allocated : Nat
  free : Nat
  allocator : Option BlockAllocator
deriving DecidableEq, Repr

def bucketDefault : Bucket :=
  { from_ := 0, to_ := 0, allocated := 0, free := 0, allocator := none }

/-- `Bucket::alloc`; the "Allocator isn't initialized" panic is `none`.
The `self.allocated += 1; self.free -= 1` happen before the block allocator
is consulted, exactly as in the source (`free - 1` is the `usize`
decrement; in every state where the source calls this, `free > 0`). -/
def Bucket.alloc (b : Bucket) : Option (Option Nat × Bucket) :=
  match b.allocator with
  | some a =>
    let r := a.allocate
    some (r.1, { b with allocated := b.allocated + 1, free := b.free - 1, allocator := some r.2 })
  | none => none

/-- `Bucket::dealloc`; returns `self.allocated > 0` evaluated after the
decrement, or `none` for the uninitialized-allocator panic or a failed
`BlockAllocator::dealloc` assertion. -/
def Bucket.dealloc (b : Bucket) (offset : Nat) : Option (Bool × Bucket) :=
  match b.allocator with
  | some a =>
    match a.dealloc offset with
    | some a' =>
      some (decide (0 < b.allocated - 1),
        { b with allocated := b.allocated - 1, free := b.free + 1, allocator := some a' })
    | none => none
  | none => none

/-- `Bucket::init`; the four `assert!`s are the guard. -/
def Bucket.init (b : Bucket) (from_ to_ : Nat) : Option Bucket :=
  if MIN_UNIFORM_SIZE ≤ to_ ∧ from_ < MAX_UNIFORM_SIZE ∧ to_ ≤ MAX_UNIFORM_SIZE ∧ from_ < to_ then
    some { from_ := from_, to_ := to_, allocated := 0, free := BUCKET_SIZE / to_,
           allocator := some (BlockAllocator.new to_ (UNIFORM_BUFFER_SIZE / to_)) }
  else none

def Bucket.is_suitable (b : Bucket) (size : Nat) : Bool :=
  b.allocator.isSome && decide (0 < b.free) && decide (b.from_ < size) && decide (size ≤ b.to_)

/-- `Bucket::release`; `assert_eq!(0, self.allocated)` is the guard. -/
def Bucket.release (b : Bucket) : Option Bucket :=
  if b.allocated = 0 then
    some { from_ := 0, to_ := 0, allocated := 0, free := 0, allocator := none }
  else none

structure UniformStorage where
  buckets : List Bucket
  free_buckets : List Nat
deriving DecidableEq, Repr

/-- The bookkeeping state of a freshly constructed `UniformStorage`
(`UniformStorage::new` additionally creates the device buffer and mapping,
which are not part of this embedding). -/
def UniformStorage.new : UniformStorage := { buckets := [], free_buckets := [] }

/-- `.iter().position(|x| x.is_suitable(size))`. -/
def positionSuitable (size : Nat) : List Bucket → Option Nat
  | [] => none
  | b :: rest =>
    if b.is_suitable size then some 0 else (positionSuitable size rest).map (· + 1)

def UniformStorage.find_bucket_index (s : UniformStorage) (size : Nat) : Option Nat :=
  positionSuitable size s.buckets

/-- `UniformStorage::find_size_range` without the final `.unwrap()` (the
caller `allocate_bucket` treats `none` as that panic). -/
def UniformStorage.find_size_range (size : Nat) : Option (Nat × Nat) :=
  SIZE_RANGES.find? (fun r => decide (r.1 < size) && decide (size ≤ r.2))

def UniformStorage.allocate_bucket (s : UniformStorage) (size : Nat) :
    Option (Option Nat × UniformStorage) :=
  match UniformStorage.find_size_range size with
  | none => none
  | some (from_, to_) =>
    match s.free_buckets with
    | free :: rest =>
      match s.buckets[free]? with
      | some b =>
        match b.init from_ to_ with
        | some b' => some (some free, { buckets := s.buckets.set free b', free_buckets := rest })
        | none => none
      | none => none
    | [] =>
      if s.buckets.length = BUCKET_COUNT then some (none, s)
      else
        match bucketDefault.init from_ to_ with
        | some b' =>
          some (some s.buckets.length,
            { buckets := s.buckets ++ [b'], free_buckets := s.free_buckets })
        | none => none

/-- `UniformStorage::push` for a value of `size_of::<T>() = size` bytes.
The recoverable `RenderError` results sit inside the outer `Option` (whose
`none` is a panic).  When the chosen bucket's block allocator is exhausted
the source returns `Err(OutOfAllocatedSpace)` by `?`; the bucket counter
mutations made before that are observable only on that error path, which no
caller continues from, so the error constructor carries no state. -/
def UniformStorage.push (s : UniformStorage) (size : Nat) :
    Option (Except RenderError (Nat × UniformStorage)) :=
  match
    (match s.find_bucket_index size with
     | some i => some (some i, s)
     | none => s.allocate_bucket size) with
  | none => none
  | some (none, _) => some (Except.error RenderError.outOfAllocatedSpace)
  | some (some index, s1) =>
    match s1.buckets[index]? with
    | none => none
    | some b =>
      match b.alloc with
      | none => none
      | some (optOffset, b') =>
        match optOffset with
        | none => some (Except.error RenderError.outOfAllocatedSpace)
        | some offset =>
          some (Except.ok (index * BUCKET_SIZE + offset,
            { s1 with buckets := s1.buckets.set index b' }))

def UniformStorage.dealloc (s : UniformStorage) (offset : Nat) : Option UniformStorage :=
  let index := offset / BUCKET_SIZE
  let local_offset := offset - index * BUCKET_SIZE
  match s.buckets[index]? with
  | none => none
  | some b =>
    match b.dealloc local_offset with
    | none => none
    | some (alive, b') =>
      if alive then some { s with buckets := s.buckets.set index b' }
      else
        match b'.release with
        | some br =>
          some { buckets := s.buckets.set index br, free_buckets := index :: s.free_buckets }
        | none => none

/-- Well-formedness of the slab: every initialized bucket carries a size
range from `SIZE_RANGES` and its block allocator's stride equals the
range's upper bound.  Holds for `UniformStorage.new` and is preserved by
`push`/`dealloc` (`uniformWF_new`, `uniformWF_push`, `uniformWF_dealloc`). -/
def bucketWF (b : Bucket) : Bool :=
  match b.allocator with
  | some a => decide ((b.from_, b.to_) ∈ SIZE_RANGES) && (a.chunk_size == b.to_)
  | none => true

def UniformWF (s : UniformStorage) : Bool := s.buckets.all bucketWF

/-! ## `DropList` (`drop_list.rs`)

The queued device objects (`vk::Image`, `vk::ImageView`, `vk::Buffer`,
`GpuMemory`, `DescriptorSet`) are opaque device references, embedded as
`Nat` ids.  `purge` physically destroys every queued item in order (views,
images, buffers, memory blocks, descriptor sets, uniform offsets); the
device-side destructions are embedded as the emitted `PurgeBatch`, while the
uniform-offset frees act on the `UniformStorage` state.  The
`shrink_to(CAPACITY)` calls only bound spare capacity, which a list does
not have. -/

structure DropList where
  memory_to_free : List Nat
  images_to_free : List Nat
  image_views_to_free : List Nat
  buffers_to_free : List Nat
  descriptors_to_free : List Nat
  uniforms_to_free : List Nat
deriving DecidableEq, Repr

/-- `DropList::default()` (the `with_capacity` reservations are not
observable). -/
def DropList.new : DropList := ⟨[], [], [], [], [], []⟩

/-- The items a `purge` hands to the device / allocators, in destruction
order. -/
structure PurgeBatch where
  views : List Nat
  images : List Nat
  buffers : List Nat
  memory : List Nat
  descriptors : List Nat
  uniforms : List Nat
deriving DecidableEq, Repr

def PurgeBatch.empty : PurgeBatch := ⟨[], [], [], [], [], []⟩

/-- `self.uniforms_to_free.drain(..).for_each(|x| uniforms.dealloc(x))`. -/
def purgeUniforms : List Nat → UniformStorage → Option UniformStorage
  | [], u => some u
  | x :: rest, u =>
    match u.dealloc x with
    | some u' => purgeUniforms rest u'
    | none => none

/-- `DropList::purge`: drains every bucket (destroying the queued items) and
leaves every bucket empty. -/
def DropList.purge (d : DropList) (uniforms : UniformStorage) :
    Option (PurgeBatch × DropList × UniformStorage) :=
  match purgeUniforms d.uniforms_to_free uniforms with
  | some u' =>
    some (⟨d.image_views_to_free, d.images_to_free, d.buffers_to_free,
           d.memory_to_free, d.descriptors_to_free, d.uniforms_to_free⟩,
          DropList.new, u')
  | none => none

structure PbrMaterial where
  base : Nat
  normal : Nat
  metallic_roughness : Nat
  occlusion : Nat
  emission : Nat
deriving DecidableEq, Repr

/-- `PbrMaterial::collect_dependencies`.  Note the body of the last guard:
the source inserts `self.occlusion` (not `self.emission`) when
`self.emission.valid()`. -/
def PbrMaterial.collect_dependencies (m : PbrMaterial) (deps : Finset Nat) : Finset Nat :=
  let d1 := if AssetRef.valid m.base then insert m.base deps else deps
  let d2 := if AssetRef.valid m.normal then insert m.normal d1 else d1
  let d3 := if AssetRef.valid m.metallic_roughness then insert m.metallic_roughness d2 else d2
  let d4 := if AssetRef.valid m.occlusion then insert m.occlusion d3 else d3
  if AssetRef.valid m.emission then insert m.occlusion d4 else d4

end Kiri

namespace Kiri

/-! # Theorems -/

/-! ## Bit-level helpers -/

theorem testBit_mul_pow_add {n : Nat} (g i j : Nat) (hi : i < 2 ^ n) :
    (g * 2 ^ n + i).testBit j = if j < n then i.testBit j else g.testBit (j - n) := by
  rcases Nat.lt_or_ge j n with hj | hj
  · rw [if_pos hj, Nat.testBit_to_div_mod, Nat.testBit_to_div_mod]
    have h2 : g * 2 ^ n = 2 ^ j * (g * 2 ^ (n - j - 1) * 2) := by
      obtain ⟨m, hm⟩ : ∃ m, n = j + m + 1 := ⟨n - j - 1, by omega⟩
      subst hm
      have hmm : j + m + 1 - j - 1 = m := by omega
      rw [hmm, pow_add, pow_add, pow_one]
      ring
    rw [h2, Nat.mul_add_div (by positivity), Nat.mul_add_mod']
  · rw [if_neg (by omega), Nat.testBit_to_div_mod, Nat.testBit_to_div_mod]
    have h2 : (2:Nat) ^ j = 2 ^ n * 2 ^ (j - n) := by rw [← Nat.pow_add]; congr 1; omega
    rw [h2, ← Nat.div_div_eq_div_mul, Nat.mul_comm g, Nat.mul_add_div (by positivity),
      Nat.div_eq_of_lt hi, Nat.add_zero]

/-- Packing a field into high bits next to a small low field is addition. -/
theorem shiftLeft_lor_eq_add {n : Nat} (g i : Nat) (hi : i < 2 ^ n) :
    (g <<< n) ||| i = g * 2 ^ n + i := by
  apply Nat.eq_of_testBit_eq
  intro j
  rw [Nat.testBit_lor, Nat.testBit_shiftLeft, testBit_mul_pow_add g i j hi]
  rcases Nat.lt_or_ge j n with hj | hj
  · simp [if_pos hj, show ¬ (j ≥ n) by omega]
  · have hij : i.testBit j = false :=
      Nat.testBit_lt_two_pow (lt_of_lt_of_le hi (Nat.pow_le_pow_right (by norm_num) hj))
    simp [if_neg (by omega : ¬ j < n), hij, hj]

/-- Masking with the high bits `2^w - 2^k` of a `w`-bit word clears the low
`k` bits. -/
theorem land_high_mask {w k : Nat} (v : Nat) (hv : v < 2 ^ w) (hk : k ≤ w) :
    v &&& (2 ^ w - 2 ^ k) = v / 2 ^ k * 2 ^ k := by
  apply Nat.eq_of_testBit_eq
  intro j
  have hmask : (2 ^ w - 2 ^ k : Nat) = (2 ^ (w - k) - 1) <<< k := by
    rw [Nat.shiftLeft_eq, Nat.sub_mul, one_mul, ← Nat.pow_add]
    congr 2
    omega
  have hdiv : v / 2 ^ k * 2 ^ k = (v >>> k) <<< k := by
    rw [Nat.shiftRight_eq_div_pow, Nat.shiftLeft_eq]
  rw [hmask, hdiv, Nat.testBit_land, Nat.testBit_shiftLeft, Nat.testBit_shiftLeft,
    Nat.testBit_shiftRight, Nat.testBit_two_pow_sub_one]
  by_cases hjk : k ≤ j
  · have hkj : k + (j - k) = j := by omega
    rw [hkj]
    by_cases hjw : j < w
    · simp [hjk, show j - k < w - k by omega]
    · have hvj : v.testBit j = false :=
        Nat.testBit_lt_two_pow
          (lt_of_lt_of_le hv (Nat.pow_le_pow_right (by norm_num) (by omega)))
      simp [hvj]
  · simp [hjk]

/-! ## Handle packing -/

theorem Handle.index_pack {g i : Nat} (hi : i < 2 ^ 20) :
    (Handle.mk ((g <<< INDEX_BITS) ||| i)).index = i := by
  unfold Handle.index
  rw [show INDEX_BITS = 20 from by decide] at *
  rw [shiftLeft_lor_eq_add g i hi, show INDEX_MASK = 2 ^ 20 - 1 from by decide,
    Nat.and_pow_two_sub_one_eq_mod]
  show (g * 2 ^ 20 + i) % 2 ^ 20 = i
  rw [Nat.mul_add_mod', Nat.mod_eq_of_lt hi]

theorem Handle.generation_pack {g i : Nat} (hg : g < 2 ^ 12) (hi : i < 2 ^ 20) :
    (Handle.mk ((g <<< INDEX_BITS) ||| i)).generation = g := by
  unfold Handle.generation
  rw [show INDEX_BITS = 20 from by decide] at *
  rw [shiftLeft_lor_eq_add g i hi, show GENERATION_MASK = 2 ^ 32 - 2 ^ 20 from by decide]
  have hlt : g * 2 ^ 20 + i < 2 ^ 32 := by
    have : g * 2 ^ 20 ≤ (2 ^ 12 - 1) * 2 ^ 20 := Nat.mul_le_mul_right _ (by omega)
    omega
  show ((g * 2 ^ 20 + i) &&& (2 ^ 32 - 2 ^ 20)) >>> 20 = g
  rw [land_high_mask _ hlt (by norm_num), Nat.shiftRight_eq_div_pow,
    Nat.mul_div_cancel _ (by positivity), Nat.mul_comm g, Nat.mul_add_div (by positivity),
    Nat.div_eq_of_lt hi, Nat.add_zero]

/-- Everything `Handle::new` guarantees about a successfully created
handle. -/
theorem Handle.new_spec {i g : Nat} {h : Handle} (hn : Handle.new i g = some h) :
    h.index = i ∧ h.generation = g ∧ i < MAX_INDEX ∧ g < MAX_GENERATION := by
  unfold Handle.new at hn
  split at hn
  · rename_i hguard
    obtain ⟨hi, hg⟩ := hguard
    cases hn
    have hi20 : i < 2 ^ 20 := by
      have : MAX_INDEX = 2 ^ 20 - 1 := by decide
      omega
    have hg12 : g < 2 ^ 12 := by
      have : MAX_GENERATION = 2 ^ 12 := by decide
      omega
    exact ⟨Handle.index_pack hi20, Handle.generation_pack hg12 hi20, hi, hg⟩
  · cases hn

/-! ## Pool invariant and operation lemmas -/

theorem poolInv_new : PoolInv (Pool.new : Pool T U) := by
  refine ⟨rfl, rfl, by simp [Pool.new], ?_, ?_, List.nodup_nil⟩ <;> simp [Pool.new]

theorem pool_push_spec {p : Pool T U} {h : T} {c : U} {hdl : Handle} {q : Pool T U}
    (hInv : PoolInv p) (hp : p.push h c = some (hdl, q)) :
    PoolInv q ∧ q.is_handle_valid hdl = true ∧ q.get hdl = some (some (h, c)) ∧
    q.generations.length = max p.generations.length (hdl.index + 1) ∧
    (∀ i, i < p.generations.length → q.generations.getD i 0 = p.generations.getD i 0) := by
  obtain ⟨hlenH, hlenC, hmax, hgens, hemp, hnd⟩ := hInv
  unfold Pool.push at hp
  cases hse : p.empty with
  | cons slot rest =>
    rw [hse] at hp
    simp only at hp
    cases hHN : Handle.new slot (p.generations.getD slot 0) with
    | none => rw [hHN] at hp; cases hp
    | some h' =>
      rw [hHN] at hp
      simp only [Option.some.injEq, Prod.mk.injEq] at hp
      obtain ⟨rfl, rfl⟩ := hp
      obtain ⟨hidx, hgen, hiMax, hgMax⟩ := Handle.new_spec hHN
      have hslotMem : slot ∈ p.empty := by rw [hse]; exact List.mem_cons_self slot rest
      obtain ⟨hslotLen, hslotHot, hslotCold⟩ := hemp slot hslotMem
      have hslotNotRest : slot ∉ rest := by
        have := hnd
        rw [hse] at this
        exact (List.nodup_cons.mp this).1
      have hndRest : rest.Nodup := by
        have := hnd
        rw [hse] at this
        exact (List.nodup_cons.mp this).2
      have hslotHotLen : slot < p.hot.length := by omega
      have hslotColdLen : slot < p.cold.length := by omega
      refine ⟨⟨by simp [List.length_set]; omega, by simp [List.length_set]; omega,
        by simpa using hmax, by simpa using hgens, ?_, hndRest⟩, ?_, ?_, ?_, ?_⟩
      · intro e he
        simp only at he ⊢
        have hne : e ≠ slot := fun hEq => hslotNotRest (hEq ▸ he)
        obtain ⟨heLen, heHot, heCold⟩ := hemp e (by rw [hse]; exact List.mem_cons_of_mem _ he)
        refine ⟨heLen, ?_, ?_⟩
        · rw [List.getD_eq_getElem?_getD, List.getElem?_set, if_neg (fun hEq => hne hEq.symm),
            ← List.getD_eq_getElem?_getD]
          exact heHot
        · rw [List.getD_eq_getElem?_getD, List.getElem?_set, if_neg (fun hEq => hne hEq.symm),
            ← List.getD_eq_getElem?_getD]
          exact heCold
      · simp only [Pool.is_handle_valid, hidx, hgen]
        simp [hslotLen]
      · unfold Pool.get
        rw [if_pos]
        · simp only [hidx]
          rw [List.getD_eq_getElem?_getD, List.getElem?_set, if_pos rfl, if_pos hslotHotLen,
            List.getD_eq_getElem?_getD, List.getElem?_set, if_pos rfl, if_pos hslotColdLen]
          rfl
        · simp only [Pool.is_handle_valid, hidx, hgen]
          simp [hslotLen]
      · simp only [hidx]
        omega
      · intro i hi
        rfl
  | nil =>
    rw [hse] at hp
    simp only at hp
    split at hp
    · cases hp
    · cases hHN : Handle.new p.generations.length 0 with
      | none => rw [hHN] at hp; cases hp
      | some h' =>
        rw [hHN] at hp
        simp only [Option.some.injEq, Prod.mk.injEq] at hp
        obtain ⟨rfl, rfl⟩ := hp
        obtain ⟨hidx, hgen, hiMax, hgMax⟩ := Handle.new_spec hHN
        refine ⟨⟨?_, ?_, ?_, ?_, ?_, List.nodup_nil⟩, ?_, ?_, ?_, ?_⟩
        · simp [List.length_append]; omega
        · simp [List.length_append]; omega
        · simp only [List.length_append, List.length_singleton]
          omega
        · intro g hg
          rcases List.mem_append.mp hg with hg | hg
          · exact hgens g hg
          · simp only [List.mem_singleton] at hg
            subst hg
            decide
        · intro e he
          cases he
        · simp only [Pool.is_handle_valid, hidx, hgen, List.length_append]
          have hget : (p.generations ++ [0]).getD p.generations.length 0 = 0 := by
            rw [List.getD_eq_getElem?_getD, List.getElem?_append_right (Nat.le_refl _)]
            simp
          simp [hget]
        · unfold Pool.get
          rw [if_pos]
          · simp only [hidx]
            have hgetH : (p.hot ++ [some h]).getD p.generations.length none = some h := by
              rw [List.getD_eq_getElem?_getD, List.getElem?_append_right (by omega), hlenH]
              simp
            have hgetC : (p.cold ++ [some c]).getD p.generations.length none = some c := by
              rw [List.getD_eq_getElem?_getD, List.getElem?_append_right (by omega), hlenC]
              simp
            rw [hgetH, hgetC]
          · simp only [Pool.is_handle_valid, hidx, hgen, List.length_append]
            have hget : (p.generations ++ [0]).getD p.generations.length 0 = 0 := by
              rw [List.getD_eq_getElem?_getD, List.getElem?_append_right (Nat.le_refl _)]
              simp
            simp [hget]
        · simp only [hidx, List.length_append, List.length_singleton]
          omega
        · intro i hi
          rw [List.getD_eq_getElem?_getD, List.getElem?_append_left hi,
            ← List.getD_eq_getElem?_getD]

theorem pool_replace_spec {p : Pool T U} {hdl : Handle} {x : T} {y : U}
    {r : Option (T × U)} {q : Pool T U}
    (hInv : PoolInv p) (hp : p.replace hdl x y = some (r, q)) :
    PoolInv q ∧ q.generations = p.generations := by
  obtain ⟨hlenH, hlenC, hmax, hgens, hemp, hnd⟩ := hInv
  unfold Pool.replace at hp
  split at hp
  · rename_i hvalid
    cases hH : p.hot.getD hdl.index none with
    | none => rw [hH] at hp; cases hC : p.cold.getD hdl.index none <;> rw [hC] at hp <;> cases hp
    | some a =>
      cases hC : p.cold.getD hdl.index none with
      | none => rw [hH, hC] at hp; cases hp
      | some b =>
        rw [hH, hC] at hp
        simp only [Option.some.injEq, Prod.mk.injEq] at hp
        obtain ⟨rfl, rfl⟩ := hp
        refine ⟨⟨by simp [List.length_set]; omega, by simp [List.length_set]; omega,
          by simpa using hmax, by simpa using hgens, ?_, hnd⟩, rfl⟩
        intro e he
        have hne : e ≠ hdl.index := by
          intro hEq
          obtain ⟨-, heHot, -⟩ := hemp e he
          rw [hEq, hH] at heHot
          cases heHot
        obtain ⟨heLen, heHot, heCold⟩ := hemp e he
        refine ⟨heLen, ?_, ?_⟩
        · rw [List.getD_eq_getElem?_getD, List.getElem?_set, if_neg (fun hEq => hne hEq.symm),
            ← List.getD_eq_getElem?_getD]
          exact heHot
        · rw [List.getD_eq_getElem?_getD, List.getElem?_set, if_neg (fun hEq => hne hEq.symm),
            ← List.getD_eq_getElem?_getD]
          exact heCold
  · simp only [Option.some.injEq, Prod.mk.injEq] at hp
    obtain ⟨rfl, rfl⟩ := hp
    exact ⟨⟨hlenH, hlenC, hmax, hgens, hemp, hnd⟩, rfl⟩

theorem pool_remove_spec {p : Pool T U} {hdl : Handle} {r : Option (T × U)} {q : Pool T U}
    (hInv : PoolInv p) (hp : p.remove hdl = some (r, q)) :
    PoolInv q ∧ q.generations.length = p.generations.length ∧
    (∀ i, i ≠ hdl.index → q.generations.getD i 0 = p.generations.getD i 0) ∧
    (q.generations.getD hdl.index 0 = p.generations.getD hdl.index 0 ∨
      q.generations.getD hdl.index 0 =
        ((p.generations.getD hdl.index 0 + 1) % 2 ^ 32) % MAX_GENERATION) := by
  obtain ⟨hlenH, hlenC, hmax, hgens, hemp, hnd⟩ := hInv
  unfold Pool.remove at hp
  split at hp
  · rename_i hvalid
    have hidxLen : hdl.index < p.generations.length := by
      simp only [Pool.is_handle_valid, Bool.and_eq_true, decide_eq_true_eq] at hvalid
      exact hvalid.1
    cases hH : p.hot.getD hdl.index none with
    | none => rw [hH] at hp; cases hC : p.cold.getD hdl.index none <;> rw [hC] at hp <;> cases hp
    | some a =>
      cases hC : p.cold.getD hdl.index none with
      | none => rw [hH, hC] at hp; cases hp
      | some b =>
        rw [hH, hC] at hp
        simp only [Option.some.injEq, Prod.mk.injEq] at hp
        obtain ⟨rfl, rfl⟩ := hp
        have hidxNotEmpty : hdl.index ∉ p.empty := by
          intro hmem
          obtain ⟨-, heHot, -⟩ := hemp hdl.index hmem
          rw [hH] at heHot
          cases heHot
        have hnewlt : ((p.generations.getD hdl.index 0 + 1) % 2 ^ 32) % MAX_GENERATION
            < MAX_GENERATION := by
          apply Nat.mod_lt
          decide
        refine ⟨⟨by simp [List.length_set]; omega, by simp [List.length_set]; omega,
          by simpa [List.length_set] using hmax, ?_, ?_, ?_⟩, by simp [List.length_set], ?_, ?_⟩
        · intro g hg
          rcases List.mem_or_eq_of_mem_set hg with hg | hg
          · exact hgens g hg
          · rw [hg]
            exact hnewlt
        · intro e he
          simp only at he ⊢
          rcases List.mem_cons.mp he with rfl | he
          · refine ⟨by simpa [List.length_set] using hidxLen, ?_, ?_⟩
            · rw [List.getD_eq_getElem?_getD, List.getElem?_set, if_pos rfl,
                if_pos (by omega : hdl.index < p.hot.length)]
              rfl
            · rw [List.getD_eq_getElem?_getD, List.getElem?_set, if_pos rfl,
                if_pos (by omega : hdl.index < p.cold.length)]
              rfl
          · have hne : e ≠ hdl.index := fun hEq => hidxNotEmpty (hEq ▸ he)
            obtain ⟨heLen, heHot, heCold⟩ := hemp e he
            refine ⟨by simpa [List.length_set] using heLen, ?_, ?_⟩
            · rw [List.getD_eq_getElem?_getD, List.getElem?_set,
                if_neg (fun hEq => hne hEq.symm), ← List.getD_eq_getElem?_getD]
              exact heHot
            · rw [List.getD_eq_getElem?_getD, List.getElem?_set,
                if_neg (fun hEq => hne hEq.symm), ← List.getD_eq_getElem?_getD]
              exact heCold
        · exact List.Nodup.cons hidxNotEmpty hnd
        · intro i hi
          simp only
          rw [List.getD_eq_getElem?_getD, List.getElem?_set, if_neg (fun hEq => hi hEq.symm),
            ← List.getD_eq_getElem?_getD]
        · right
          simp only
          rw [List.getD_eq_getElem?_getD, List.getElem?_set, if_pos rfl, if_pos hidxLen]
          rfl
  · simp only [Option.some.injEq, Prod.mk.injEq] at hp
    obtain ⟨rfl, rfl⟩ := hp
    exact ⟨⟨hlenH, hlenC, hmax, hgens, hemp, hnd⟩, rfl, fun i _ => rfl, Or.inl rfl⟩

/-- Removing a live (valid and occupied) handle returns its payload and
leaves the handle invalid: the slot's generation moves off the handle's
generation, so every subsequent accessor takes its "not found" branch. -/
theorem pool_remove_invalidates {p : Pool T U} {hdl : Handle} {a : T} {b : U}
    {r : Option (T × U)} {q : Pool T U}
    (hInv : PoolInv p) (hget : p.get hdl = some (some (a, b)))
    (hrem : p.remove hdl = some (r, q)) :
    r = some (a, b) ∧ q.is_handle_valid hdl = false ∧
    q.get hdl = some none ∧ q.get_hot hdl = some none ∧ q.get_cold hdl = some none ∧
    (∀ x y, q.replace hdl x y = some (none, q)) ∧
    q.remove hdl = some (none, q) := by
  obtain ⟨hlenH, hlenC, hmax, hgens, hemp, hnd⟩ := hInv
  unfold Pool.get at hget
  split at hget
  case isFalse => cases hget
  case isTrue hvalid =>
  have hidxLen : hdl.index < p.generations.length := by
    simp only [Pool.is_handle_valid, Bool.and_eq_true, decide_eq_true_eq] at hvalid
    exact hvalid.1
  have hgenEq : p.generations.getD hdl.index 0 = hdl.generation := by
    simp only [Pool.is_handle_valid, Bool.and_eq_true, decide_eq_true_eq,
      beq_iff_eq] at hvalid
    exact hvalid.2
  have hglt : p.generations.getD hdl.index 0 < MAX_GENERATION := by
    apply hgens
    rw [List.getD_eq_getElem?_getD, List.getElem?_eq_getElem hidxLen]
    exact List.getElem_mem _
  cases hH : p.hot.getD hdl.index none with
  | none => rw [hH] at hget; cases hC : p.cold.getD hdl.index none <;> rw [hC] at hget <;>
      cases hget
  | some a' =>
    cases hC : p.cold.getD hdl.index none with
    | none => rw [hH, hC] at hget; cases hget
    | some b' =>
      rw [hH, hC] at hget
      simp only [Option.some.injEq, Prod.mk.injEq] at hget
      obtain ⟨rfl, rfl⟩ := hget
      unfold Pool.remove at hrem
      rw [if_pos hvalid, hH, hC] at hrem
      simp only [Option.some.injEq, Prod.mk.injEq] at hrem
      obtain ⟨rfl, rfl⟩ := hrem
      have hMG : MAX_GENERATION = 4096 := by decide
      have h32 : (2 : Nat) ^ 32 = 4294967296 := by norm_num
      have hnewGen :
          ((p.generations.getD hdl.index 0 + 1) % 2 ^ 32) % MAX_GENERATION ≠
            hdl.generation := by
        rw [← hgenEq, hMG, h32]
        omega
      have hvalid' :
          (Pool.mk (p.hot.set hdl.index none) (p.cold.set hdl.index none)
            (p.generations.set hdl.index
              (((p.generations.getD hdl.index 0 + 1) % 2 ^ 32) % MAX_GENERATION))
            (hdl.index :: p.empty) : Pool T U).is_handle_valid hdl = false := by
        simp only [Pool.is_handle_valid]
        have hget' : (p.generations.set hdl.index
            (((p.generations.getD hdl.index 0 + 1) % 2 ^ 32) % MAX_GENERATION)).getD
              hdl.index 0 =
            ((p.generations.getD hdl.index 0 + 1) % 2 ^ 32) % MAX_GENERATION := by
          rw [List.getD_eq_getElem?_getD, List.getElem?_set, if_pos rfl, if_pos hidxLen]
          rfl
        rw [hget']
        rw [beq_eq_false_iff_ne.mpr hnewGen, Bool.and_false]
      refine ⟨rfl, hvalid', ?_, ?_, ?_, ?_, ?_⟩
      · unfold Pool.get
        rw [hvalid']
        simp
      · unfold Pool.get_hot
        rw [hvalid']
        simp
      · unfold Pool.get_cold
        rw [hvalid']
        simp
      · intro x y
        unfold Pool.replace
        rw [hvalid']
        simp
      · unfold Pool.remove
        rw [hvalid']
        simp

theorem poolInv_step {p q : Pool T U} {op : PoolOp T U}
    (hInv : PoolInv p) (hs : p.step op = some q) : PoolInv q := by
  cases op with
  | push h c =>
    simp only [Pool.step, Option.map_eq_some'] at hs
    obtain ⟨⟨hdl, q'⟩, hpush, rfl⟩ := hs
    exact (pool_push_spec hInv hpush).1
  | replace hd x y =>
    simp only [Pool.step, Option.map_eq_some'] at hs
    obtain ⟨⟨r, q'⟩, hrep, rfl⟩ := hs
    exact (pool_replace_spec hInv hrep).1
  | remove hd =>
    simp only [Pool.step, Option.map_eq_some'] at hs
    obtain ⟨⟨r, q'⟩, hrem, rfl⟩ := hs
    exact (pool_remove_spec hInv hrem).1

theorem poolInv_runOps {ops : List (PoolOp T U)} :
    ∀ {p q : Pool T U}, PoolInv p → Pool.runOps p ops = some q → PoolInv q := by
  induction ops with
  | nil => intro p q hInv hr; cases hr; exact hInv
  | cons op rest ih =>
    intro p q hInv hr
    unfold Pool.runOps at hr
    cases hs : p.step op with
    | none => rw [hs] at hr; cases hr
    | some p1 =>
      rw [hs] at hr
      exact ih (poolInv_step hInv hs) hr

theorem pool_reachable_inv {p : Pool T U} (hr : p.Reachable) : PoolInv p := by
  obtain ⟨ops, hops⟩ := hr
  exact poolInv_runOps poolInv_new hops

/-- A slot whose generation differs from a stale handle's generation keeps
differing as long as fewer `remove` operations aim at it than the
generation distance (the generation moves by at most one step, modulo
`MAX_GENERATION`, per `remove` of that slot). -/
theorem pool_runOps_cons {p p' : Pool T U} {op : PoolOp T U} {ops : List (PoolOp T U)} :
    Pool.runOps p (op :: ops) = some p' ↔
      ∃ q, p.step op = some q ∧ Pool.runOps q ops = some p' := by
  show (match p.step op with
    | some q => Pool.runOps q ops
    | none => none) = some p' ↔ _
  cases hs : p.step op <;> simp

theorem pool_step_push_eq {p p1 : Pool T U} {h : T} {c : U}
    (hs : p.step (PoolOp.push h c) = some p1) : ∃ hdl, p.push h c = some (hdl, p1) := by
  simp only [Pool.step] at hs
  cases hps : p.push h c with
  | none => rw [hps] at hs; cases hs
  | some pair =>
    obtain ⟨hdl, q'⟩ := pair
    rw [hps] at hs
    simp only [Option.map_some'] at hs
    obtain rfl : q' = p1 := Option.some.inj hs
    exact ⟨hdl, rfl⟩

theorem pool_step_replace_eq {p p1 : Pool T U} {hd : Handle} {x : T} {y : U}
    (hs : p.step (PoolOp.replace hd x y) = some p1) :
    ∃ r, p.replace hd x y = some (r, p1) := by
  simp only [Pool.step] at hs
  cases hps : p.replace hd x y with
  | none => rw [hps] at hs; cases hs
  | some pair =>
    obtain ⟨r, q'⟩ := pair
    rw [hps] at hs
    simp only [Option.map_some'] at hs
    obtain rfl : q' = p1 := Option.some.inj hs
    exact ⟨r, rfl⟩

theorem pool_step_remove_eq {p p1 : Pool T U} {hd : Handle}
    (hs : p.step (PoolOp.remove hd) = some p1) : ∃ r, p.remove hd = some (r, p1) := by
  simp only [Pool.step] at hs
  cases hps : p.remove hd with
  | none => rw [hps] at hs; cases hs
  | some pair =>
    obtain ⟨r, q'⟩ := pair
    rw [hps] at hs
    simp only [Option.map_some'] at hs
    obtain rfl : q' = p1 := Option.some.inj hs
    exact ⟨r, rfl⟩

/-- A slot whose generation differs from a stale handle's generation keeps
differing as long as fewer `remove` operations aim at it than the
generation distance (the generation moves by at most one step, modulo
`MAX_GENERATION`, per `remove` of that slot). -/
theorem pool_gens_distance {i gen : Nat} (hgen : gen < MAX_GENERATION)
    (ops : List (PoolOp T U)) :
    ∀ (p p' : Pool T U), PoolInv p →
      i < p.generations.length → p.generations.getD i 0 ≠ gen →
      Pool.runOps p ops = some p' →
      countRemoveOps i ops <
        (gen + MAX_GENERATION - p.generations.getD i 0) % MAX_GENERATION →
      i < p'.generations.length ∧ p'.generations.getD i 0 ≠ gen := by
  have hMG : MAX_GENERATION = 4096 := by decide
  have h32 : (2 : Nat) ^ 32 = 4294967296 := by norm_num
  induction ops with
  | nil =>
    intro p p' hInv hiLen hne hr hcount
    cases hr
    exact ⟨hiLen, hne⟩
  | cons op rest ih =>
    intro p p' hInv hiLen hne hr hcount
    rw [pool_runOps_cons] at hr
    obtain ⟨p1, hs, hr⟩ := hr
    have hInv1 : PoolInv p1 := poolInv_step hInv hs
    cases op with
    | push h c =>
      obtain ⟨hdl, hpush⟩ := pool_step_push_eq hs
      obtain ⟨-, -, -, hlen, hsame⟩ := pool_push_spec hInv hpush
      refine ih p1 p' hInv1 (by omega) (by rw [hsame i hiLen]; exact hne) hr ?_
      rw [hsame i hiLen]
      simpa [countRemoveOps] using hcount
    | replace hd x y =>
      obtain ⟨r, hrep⟩ := pool_step_replace_eq hs
      obtain ⟨-, hsame⟩ := pool_replace_spec hInv hrep
      refine ih p1 p' hInv1 (by rw [hsame]; exact hiLen) (by rw [hsame]; exact hne) hr ?_
      rw [hsame]
      simpa [countRemoveOps] using hcount
    | remove hd =>
      obtain ⟨r, hrem⟩ := pool_step_remove_eq hs
      obtain ⟨-, hlen, hother, hat⟩ := pool_remove_spec hInv hrem
      have hglt : p.generations.getD i 0 < MAX_GENERATION := by
        apply hInv.2.2.2.1
        rw [List.getD_eq_getElem?_getD, List.getElem?_eq_getElem hiLen]
        exact List.getElem_mem _
      by_cases hcase : hd.index = i
      · subst hcase
        have hcount' : countRemoveOps hd.index (PoolOp.remove hd :: rest) =
            1 + countRemoveOps hd.index rest := by
          simp [countRemoveOps]
        rw [hcount'] at hcount
        rcases hat with hat | hat
        · refine ih p1 p' hInv1 (by omega) (by rw [hat]; exact hne) hr ?_
          rw [hat]
          simp only [hMG] at hcount ⊢
          omega
        · refine ih p1 p' hInv1 (by omega) ?_ hr ?_
          · rw [hat]
            simp only [hMG, h32] at hcount ⊢
            simp only [hMG] at hgen hglt
            omega
          · rw [hat]
            simp only [hMG, h32] at hcount ⊢
            simp only [hMG] at hgen hglt
            omega
      · have hcount' : countRemoveOps i (PoolOp.remove hd :: rest) =
            countRemoveOps i rest := by
          simp [countRemoveOps, hcase]
        rw [hcount'] at hcount
        exact ih p1 p' hInv1 (by omega)
          (by rw [hother i (fun hEq => hcase hEq.symm)]; exact hne) hr
          (by rw [hother i (fun hEq => hcase hEq.symm)]; exact hcount)

theorem pool_runOps_append (xs ys : List (PoolOp T U)) :
    ∀ p : Pool T U, Pool.runOps p (xs ++ ys) =
      (Pool.runOps p xs).bind (fun q => Pool.runOps q ys) := by
  induction xs with
  | nil => intro p; rfl
  | cons op rest ih =>
    intro p
    show (match p.step op with
      | some q => Pool.runOps q (rest ++ ys)
      | none => none) =
      ((match p.step op with
        | some q => Pool.runOps q rest
        | none => none).bind fun q => Pool.runOps q ys)
    cases hs : p.step op with
    | none => rfl
    | some q => exact ih q

/-- One push/remove cycle on the one-slot pool: the slot's generation
advances by one, modulo `2^12`. -/
theorem c1_cycle (n : Nat) (h2 : n < 4096) :
    Pool.runOps (⟨[none], [none], [n], [0]⟩ : Pool Nat Nat)
      [PoolOp.push 7 7, PoolOp.remove ⟨n <<< 20⟩] =
      some ⟨[none], [none], [(n + 1) % 4096], [0]⟩ := by
  have h212 : (2 : Nat) ^ 12 = 4096 := by norm_num
  have h32 : (2 : Nat) ^ 32 = 4294967296 := by norm_num
  have hidx : (Handle.mk (n <<< 20)).index = 0 := by
    have h := Handle.index_pack (g := n) (i := 0) (by norm_num)
    rw [show INDEX_BITS = 20 from by decide] at h
    simpa using h
  have hgen : (Handle.mk (n <<< 20)).generation = n := by
    have h := Handle.generation_pack (g := n) (i := 0) (by rw [h212]; exact h2) (by norm_num)
    rw [show INDEX_BITS = 20 from by decide] at h
    simpa using h
  have hHN : Handle.new 0 n = some ⟨n <<< 20⟩ := by
    unfold Handle.new
    rw [if_pos ⟨by decide, by rw [show MAX_GENERATION = 4096 from by decide]; omega⟩]
    rw [show INDEX_BITS = 20 from by decide]
    simp
  have hpush : (⟨[none], [none], [n], [0]⟩ : Pool Nat Nat).push 7 7 =
      some (⟨n <<< 20⟩, ⟨[some 7], [some 7], [n], []⟩) := by
    simp [Pool.push, hHN]
  have hvalid : (⟨[some 7], [some 7], [n], []⟩ : Pool Nat Nat).is_handle_valid
      ⟨n <<< 20⟩ = true := by
    simp [Pool.is_handle_valid, hidx, hgen]
  have hmod : ((n + 1) % 4294967296) % MAX_GENERATION = (n + 1) % 4096 := by
    rw [show MAX_GENERATION = 4096 from by decide]
    have hin : (n + 1) % 4294967296 = n + 1 := Nat.mod_eq_of_lt (by omega)
    rw [hin]
  have hremove : (⟨[some 7], [some 7], [n], []⟩ : Pool Nat Nat).remove ⟨n <<< 20⟩ =
      some (some (7, 7), ⟨[none], [none], [(n + 1) % 4096], [0]⟩) := by
    unfold Pool.remove
    rw [hvalid]
    simp [hidx, hmod]
  simp [Pool.runOps, Pool.step, hpush, hremove]

/-- The pool state after `k` complete push/remove cycles on slot 0. -/
theorem c1_after : ∀ k, 1 ≤ k → k ≤ 4096 →
    Pool.runOps (Pool.new : Pool Nat Nat)
      (((List.range k).map (fun j => [PoolOp.push 7 7, PoolOp.remove ⟨j <<< 20⟩])).flatten) =
      some ⟨[none], [none], [k % 4096], [0]⟩ := by
  intro k
  induction k with
  | zero => intro h1 _; omega
  | succ n ih =>
    intro _ h2
    by_cases hn : n = 0
    · subst hn
      decide
    · have hih := ih (by omega) (by omega)
      rw [List.range_succ, List.map_append, List.flatten_append, pool_runOps_append, hih]
      have hnm : n % 4096 = n := Nat.mod_eq_of_lt (by omega)
      show Pool.runOps (⟨[none], [none], [n % 4096], [0]⟩ : Pool Nat Nat)
        ([PoolOp.push 7 7, PoolOp.remove ⟨n <<< 20⟩] ++ []) = _
      rw [List.append_nil, hnm, c1_cycle n (by omega)]

/-- Counterexample to claim C1 as stated: the generation is bumped with
`wrapping_add(1) % MAX_GENERATION`, so it does *not* strictly advance
forever — after 4096 push/remove cycles on slot 0 (the ops list `c1Ops`,
whose last operation is a `remove`, not a `push`), the slot's generation has
wrapped back to 0 and the very first handle `⟨0⟩` (index 0, generation 0),
removed 4096 removes earlier, satisfies `is_handle_valid` again even though
the slot is vacant and no fresh push has produced it; one more push then
lets the stale handle read the new payload. -/
theorem pool_stale_handle_revalidates :
    ((Pool.new : Pool Nat Nat).push 7 7).map Prod.fst = some ⟨0⟩ ∧
    Pool.runOps (Pool.new : Pool Nat Nat) c1Ops = some ⟨[none], [none], [0], [0]⟩ ∧
    (Pool.mk [none] [none] [0] [0] : Pool Nat Nat).is_handle_valid ⟨0⟩ = true ∧
    (Pool.mk [none] [none] [0] [0] : Pool Nat Nat).hot.getD 0 none = none ∧
    (Pool.mk [none] [none] [0] [0] : Pool Nat Nat).push 9 9 =
      some (⟨0⟩, ⟨[some 9], [some 9], [0], []⟩) ∧
    (Pool.mk [some 9] [some 9] [0] [] : Pool Nat Nat).get ⟨0⟩ = some (some (9, 9)) := by
  refine ⟨by decide, ?_, by decide, rfl, by decide, by decide⟩
  have h := c1_after 4096 (by norm_num) (le_refl _)
  simpa [c1Ops] using h

/-- Claim C1 (amended): in every reachable pool state, (a) a handle returned
by a successful `push` is valid immediately afterwards and `get` returns the
pushed payload; (b) removing a live handle returns its payload and every
accessor (`get`, `get_hot`, `get_cold`, `replace`, `remove`) thereafter
answers "not found" for it; and (c) a stale handle stays invalid under any
further panic-free operation sequence as long as fewer `remove` operations
target its slot than the current generation distance
`(handle.generation + 4096 - slot.generation) % 4096` — in particular, for
fewer than 4095 further removes of the slot after the matching remove.  (The
unamended "never again valid" fails only once the generation wraps around,
see `pool_stale_handle_revalidates`.) -/
theorem pool_handle_lifecycle (p : Pool T U) (hr : p.Reachable) :
    (∀ (h : T) (c : U) (hdl : Handle) (p' : Pool T U),
      p.push h c = some (hdl, p') →
        p'.is_handle_valid hdl = true ∧ p'.get hdl = some (some (h, c))) ∧
    (∀ (hdl : Handle) (a : T) (b : U) (r : Option (T × U)) (p' : Pool T U),
      p.get hdl = some (some (a, b)) → p.remove hdl = some (r, p') →
        r = some (a, b) ∧ p'.is_handle_valid hdl = false ∧
        p'.get hdl = some none ∧ p'.get_hot hdl = some none ∧ p'.get_cold hdl = some none ∧
        (∀ x y, p'.replace hdl x y = some (none, p')) ∧
        p'.remove hdl = some (none, p')) ∧
    (∀ (hdl : Handle) (ops : List (PoolOp T U)) (p' : Pool T U),
      p.is_handle_valid hdl = false → hdl.index < p.generations.length →
      hdl.generation < MAX_GENERATION →
      Pool.runOps p ops = some p' →
      countRemoveOps hdl.index ops <
        (hdl.generation + MAX_GENERATION - p.generations.getD hdl.index 0) % MAX_GENERATION →
      p'.is_handle_valid hdl = false) := by
  have hInv := pool_reachable_inv hr
  refine ⟨?_, ?_, ?_⟩
  · intro h c hdl p' hp
    obtain ⟨-, hv, hg, -, -⟩ := pool_push_spec hInv hp
    exact ⟨hv, hg⟩
  · intro hdl a b r p' hget hrem
    exact pool_remove_invalidates hInv hget hrem
  · intro hdl ops p' hval hiLen hgen hrun hcount
    have hne : p.generations.getD hdl.index 0 ≠ hdl.generation := by
      intro hEq
      rw [List.getD_eq_getElem?_getD, List.getElem?_eq_getElem hiLen,
        Option.getD_some] at hEq
      simp only [Pool.is_handle_valid] at hval
      simp [hiLen, hEq] at hval
    obtain ⟨-, hne'⟩ := pool_gens_distance hgen ops p p' hInv hiLen hne hrun hcount
    simp only [Pool.is_handle_valid]
    rw [beq_eq_false_iff_ne.mpr hne', Bool.and_false]

/-- Witness for `pool_handle_lifecycle`: exercising all three parts on
concrete reachable pools — the pushed handle `⟨0⟩` reads back its payload;
the matching remove returns the payload and leaves every accessor answering
"not found"; and the stale handle stays invalid across a further
interleaving containing one more remove of slot 0 (distance 4095). -/
theorem pool_handle_lifecycle_witness :
    ((Pool.mk [some 1] [some 2] [0] [] : Pool Nat Nat).is_handle_valid ⟨0⟩ = true ∧
      (Pool.mk [some 1] [some 2] [0] [] : Pool Nat Nat).get ⟨0⟩ = some (some (1, 2))) ∧
    ((some (1, 2) : Option (Nat × Nat)) = some (1, 2) ∧
      (Pool.mk [none] [none] [1] [0] : Pool Nat Nat).is_handle_valid ⟨0⟩ = false ∧
      (Pool.mk [none] [none] [1] [0] : Pool Nat Nat).get ⟨0⟩ = some none ∧
      (Pool.mk [none] [none] [1] [0] : Pool Nat Nat).get_hot ⟨0⟩ = some none ∧
      (Pool.mk [none] [none] [1] [0] : Pool Nat Nat).get_cold ⟨0⟩ = some none ∧
      (∀ x y, (Pool.mk [none] [none] [1] [0] : Pool Nat Nat).replace ⟨0⟩ x y =
        some (none, Pool.mk [none] [none] [1] [0])) ∧
      (Pool.mk [none] [none] [1] [0] : Pool Nat Nat).remove ⟨0⟩ =
        some (none, Pool.mk [none] [none] [1] [0])) ∧
    (Pool.mk [some 6] [some 6] [2] [] : Pool Nat Nat).is_handle_valid ⟨0⟩ = false := by
  refine ⟨?_, ?_, ?_⟩
  · exact (pool_handle_lifecycle (Pool.new : Pool Nat Nat) ⟨[], rfl⟩).1
      1 2 ⟨0⟩ (Pool.mk [some 1] [some 2] [0] []) (by decide)
  · exact (pool_handle_lifecycle (Pool.mk [some 1] [some 2] [0] [])
      ⟨[PoolOp.push 1 2], by decide⟩).2.1 ⟨0⟩ 1 2 (some (1, 2))
      (Pool.mk [none] [none] [1] [0]) (by decide) (by decide)
  · exact (pool_handle_lifecycle (Pool.mk [none] [none] [1] [0])
      ⟨[PoolOp.push 1 2, PoolOp.remove ⟨0⟩], by decide⟩).2.2 ⟨0⟩
      [PoolOp.push 5 5, PoolOp.remove ⟨1 <<< 20⟩, PoolOp.push 6 6]
      (Pool.mk [some 6] [some 6] [2] []) (by decide) (by decide) (by decide)
      (by decide) (by decide)

/-- Claim C10: in every state reachable by `push`/`replace`/`remove`, the
all-ones sentinel `Handle::invalid()` (index `2^20 - 1`, generation
`2^12 - 1`) is rejected by the validity check and every accessor returns
"not found" on it: `push` builds handles through `Handle::new`, whose
assertion `index < MAX_INDEX` caps the table length at `MAX_INDEX`, so the
sentinel's index can never denote a live slot. -/
theorem pool_invalid_sentinel (p : Pool T U) (hr : p.Reachable) :
    Handle.invalid.index = MAX_INDEX ∧
    p.generations.length ≤ MAX_INDEX ∧
    p.is_handle_valid Handle.invalid = false ∧
    p.get Handle.invalid = some none ∧
    p.get_hot Handle.invalid = some none ∧
    p.get_cold Handle.invalid = some none ∧
    (∀ x y, p.replace Handle.invalid x y = some (none, p)) ∧
    p.remove Handle.invalid = some (none, p) := by
  have hInv := pool_reachable_inv hr
  have hidx : Handle.invalid.index = MAX_INDEX := by decide
  have hlen : p.generations.length ≤ MAX_INDEX := hInv.2.2.1
  have hval : p.is_handle_valid Handle.invalid = false := by
    simp only [Pool.is_handle_valid, hidx]
    rw [decide_eq_false (by omega : ¬ MAX_INDEX < p.generations.length), Bool.false_and]
  refine ⟨hidx, hlen, hval, ?_, ?_, ?_, ?_, ?_⟩
  · unfold Pool.get; rw [hval]; simp
  · unfold Pool.get_hot; rw [hval]; simp
  · unfold Pool.get_cold; rw [hval]; simp
  · intro x y; unfold Pool.replace; rw [hval]; simp
  · unfold Pool.remove; rw [hval]; simp

/-- Witness for `pool_invalid_sentinel` on the reachable two-slot pool
obtained by two pushes and a replace. -/
theorem pool_invalid_sentinel_witness :
    Handle.invalid.index = MAX_INDEX ∧
    (Pool.mk [some 9, some 2] [some 9, some 2] [0, 0] [] :
      Pool Nat Nat).generations.length ≤ MAX_INDEX ∧
    (Pool.mk [some 9, some 2] [some 9, some 2] [0, 0] [] :
      Pool Nat Nat).is_handle_valid Handle.invalid = false ∧
    (Pool.mk [some 9, some 2] [some 9, some 2] [0, 0] [] :
      Pool Nat Nat).get Handle.invalid = some none ∧
    (Pool.mk [some 9, some 2] [some 9, some 2] [0, 0] [] :
      Pool Nat Nat).get_hot Handle.invalid = some none ∧
    (Pool.mk [some 9, some 2] [some 9, some 2] [0, 0] [] :
      Pool Nat Nat).get_cold Handle.invalid = some none ∧
    (∀ x y, (Pool.mk [some 9, some 2] [some 9, some 2] [0, 0] [] :
      Pool Nat Nat).replace Handle.invalid x y =
        some (none, Pool.mk [some 9, some 2] [some 9, some 2] [0, 0] [])) ∧
    (Pool.mk [some 9, some 2] [some 9, some 2] [0, 0] [] :
      Pool Nat Nat).remove Handle.invalid =
        some (none, Pool.mk [some 9, some 2] [some 9, some 2] [0, 0] []) :=
  pool_invalid_sentinel (Pool.mk [some 9, some 2] [some 9, some 2] [0, 0] [])
    ⟨[PoolOp.push 1 1, PoolOp.push 2 2, PoolOp.replace ⟨0⟩ 9 9], by decide⟩

/-- Claim C4: on a fresh `RingAllocator::new(1024, 64)`, `allocate(500)`
returns offset `0` (head moves to the aligned size `512`), a second
`allocate(500)` returns `512` (head moves to `1024`), and a third
`allocate(128)` wraps to offset `0` because `512 + 512 + 128 > 1024`. -/
theorem ring_allocator_wraps :
    (RingAllocator.new 1024 64).allocate 500 = some (0, ⟨1024, 64, 512⟩) ∧
    (RingAllocator.mk 1024 64 512).allocate 500 = some (512, ⟨1024, 64, 1024⟩) ∧
    (RingAllocator.mk 1024 64 1024).allocate 128 = some (0, ⟨1024, 64, 128⟩) := by
  refine ⟨?_, ?_, ?_⟩ <;> decide

/-- Claim C5: on a `BumpAllocator` whose capacity accommodates both requests,
`allocate(s1)` returns offset `0`, the following `allocate(s2)` returns
`align(0 + s1, aligment)`, and `reset` puts any allocator with that size and
alignment back into the freshly-constructed state (so every sequence of
`allocate` results after `reset` agrees with a fresh instance). -/
theorem bump_allocate_offsets_and_reset (size a s1 s2 : Nat)
    (h1 : s1 ≤ size) (h2 : align s1 a + s2 ≤ size) :
    (((BumpAllocator.new size a).allocate s1).1 = some 0) ∧
    ((((BumpAllocator.new size a).allocate s1).2.allocate s2).1 = some (align (0 + s1) a)) ∧
    (∀ b : BumpAllocator, b.size = size → b.aligment = a →
      b.reset = BumpAllocator.new size a) := by
  have hz : align 0 a = 0 := by simp [align, alignBits]
  refine ⟨?_, ?_, ?_⟩
  · unfold BumpAllocator.allocate BumpAllocator.new
    simp only
    rw [hz, if_neg (by omega)]
  · have hinner : (BumpAllocator.new size a).allocate s1
        = (some 0, { size := size, top := 0 + s1, aligment := a }) := by
      unfold BumpAllocator.allocate BumpAllocator.new
      simp only
      rw [hz, if_neg (by omega)]
    rw [hinner]
    unfold BumpAllocator.allocate
    simp only [Nat.zero_add]
    rw [if_neg (by omega)]
  · intro b hb ha
    cases b
    simp_all [BumpAllocator.reset, BumpAllocator.new]

/-- Witness for `bump_allocate_offsets_and_reset` at
`size = 1024`, `aligment = 64`, `s1 = 500`, `s2 = 100` (the repository's own
test values): the offsets are `0` and `512`. -/
theorem bump_allocate_offsets_and_reset_witness :
    (((BumpAllocator.new 1024 64).allocate 500).1 = some 0) ∧
    ((((BumpAllocator.new 1024 64).allocate 500).2.allocate 100).1 = some (align (0 + 500) 64)) ∧
    (∀ b : BumpAllocator, b.size = 1024 → b.aligment = 64 →
      b.reset = BumpAllocator.new 1024 64) :=
  bump_allocate_offsets_and_reset 1024 64 500 100 (by decide) (by decide)

/-- Claim C6: for a frame cursor `t ≤ 16 MiB` and a payload of `b` bytes
(with `t + b + 256 ≤ 2^32`, i.e. no `u32` wrap-around), `push_temp` fails
with `OutOfTempMemory` — leaving the cursor untouched — exactly when the
aligned new cursor `align(t + b, 256)` exceeds the fixed `16 MiB` capacity,
and otherwise succeeds, returning offset `t` and advancing the cursor to
`align(t + b, 256)`.  The region capacity is the constant
`MAX_TEMP_MEMORY`; it never changes. -/
theorem frame_push_temp_capacity (t b : Nat)
    (ht : t ≤ MAX_TEMP_MEMORY) (hb : t + b + 256 ≤ 2 ^ 32) :
    (alignU32 (t + b) ALIGMENT > MAX_TEMP_MEMORY →
      Frame.push_temp ⟨t⟩ b = (Except.error RenderError.outOfTempMemory, ⟨t⟩)) ∧
    (alignU32 (t + b) ALIGMENT ≤ MAX_TEMP_MEMORY →
      Frame.push_temp ⟨t⟩ b = (Except.ok t, ⟨alignU32 (t + b) ALIGMENT⟩)) := by
  have hb32 : b % 2 ^ 32 = b := Nat.mod_eq_of_lt (by omega)
  have hsum : (t + b % 2 ^ 32) % 2 ^ 32 = t + b := by
    rw [hb32]; exact Nat.mod_eq_of_lt (by omega)
  constructor
  · intro hgt
    simp only [Frame.push_temp, Frame.allocate, hsum]
    rw [if_neg (by omega)]
  · intro hle
    simp only [Frame.push_temp, Frame.allocate, hsum]
    rw [if_pos (by omega)]

/-- Witness for `frame_push_temp_capacity`: at `t = 0`, a `16 MiB` payload
still fits exactly (offset `0`), and at `t = 0`, a `2^32 - 256`-byte payload
fails with `OutOfTempMemory` leaving the cursor at `0`. -/
theorem frame_push_temp_capacity_witness :
    (Frame.push_temp ⟨0⟩ (16 * 1024 * 1024) =
      (Except.ok 0, ⟨alignU32 (0 + 16 * 1024 * 1024) ALIGMENT⟩)) ∧
    (Frame.push_temp ⟨0⟩ (2 ^ 32 - 256) =
      (Except.error RenderError.outOfTempMemory, ⟨0⟩)) :=
  ⟨(frame_push_temp_capacity 0 (16 * 1024 * 1024) (by decide) (by decide)).2 (by decide),
   (frame_push_temp_capacity 0 (2 ^ 32 - 256) (by decide) (by norm_num)).1 (by decide)⟩

/-- Counterexample to claim C6 as stated: `push_temp` converts the payload
size with `bytes as u32` before the atomic cursor update, so a `2^32`-byte
payload truncates to `0` bytes: at cursor `0` the call returns `Ok 0` and
leaves the cursor at `0`, even though the aligned new cursor
`align(0 + 2^32, 256) = 2^32` far exceeds the fixed `16 MiB` capacity
(`MAX_TEMP_MEMORY`) — so "fails exactly when `align(t + b, 256)` exceeds
16 MiB" does not hold for every payload, and the subsequent copy of the
full payload writes far past the mapped region. -/
theorem frame_push_temp_truncation_counterexample :
    Frame.push_temp ⟨0⟩ (2 ^ 32) = (Except.ok 0, ⟨0⟩) ∧
    MAX_TEMP_MEMORY < alignU32 (0 + 2 ^ 32) ALIGMENT := by
  constructor
  · decide
  · decide

/-- Counterexample to claim C9 as stated: for the `PbrMaterial` whose
occlusion and emission textures are the same valid reference `1` (all other
textures unset), both textures are valid, yet the collected dependency set
does contain the emission reference — so "the collected dependency set …
[does] not [contain] the emission reference" does not hold for every
material with valid occlusion and emission textures. -/
theorem pbr_material_emission_counterexample :
    AssetRef.valid (PbrMaterial.mk 0 0 0 1 1).occlusion = true ∧
    AssetRef.valid (PbrMaterial.mk 0 0 0 1 1).emission = true ∧
    (PbrMaterial.mk 0 0 0 1 1).emission ∈
      (PbrMaterial.mk 0 0 0 1 1).collect_dependencies ∅ := by
  refine ⟨by decide, by decide, ?_⟩
  decide

/-- Claim C9 (amended): for every `PbrMaterial` whose occlusion and emission
textures are valid and whose emission reference is distinct from the other
texture references and not already present in the set, `collect_dependencies`
adds the occlusion reference but never the emission reference (the guard for
the emission texture inserts `self.occlusion` instead), so the result
contains the occlusion reference and not the emission reference. -/
theorem pbr_material_emission_dropped (m : PbrMaterial) (deps : Finset Nat)
    (hocc : AssetRef.valid m.occlusion = true)
    (hemi : AssetRef.valid m.emission = true)
    (hb : m.emission ≠ m.base) (hn : m.emission ≠ m.normal)
    (hmr : m.emission ≠ m.metallic_roughness) (ho : m.emission ≠ m.occlusion)
    (hd : m.emission ∉ deps) :
    m.occlusion ∈ m.collect_dependencies deps ∧
    m.emission ∉ m.collect_dependencies deps := by
  unfold PbrMaterial.collect_dependencies
  constructor
  · split_ifs <;> simp_all [Finset.mem_insert]
  · split_ifs <;> simp_all [Finset.mem_insert]

/-! ## Bucketed slab helpers -/

theorem positionSuitable_spec {size : Nat} :
    ∀ {bs : List Bucket} {i : Nat}, positionSuitable size bs = some i →
      ∃ b, bs[i]? = some b ∧ b.is_suitable size = true := by
  intro bs
  induction bs with
  | nil => intro i h; cases h
  | cons b rest ih =>
    intro i h
    unfold positionSuitable at h
    split at h
    · rename_i hsuit
      cases h
      exact ⟨b, by simp, hsuit⟩
    · rename_i hsuit
      cases hrec : positionSuitable size rest with
      | none => rw [hrec] at h; cases h
      | some j =>
        rw [hrec] at h
        simp only [Option.map_some', Option.some.injEq] at h
        subst h
        obtain ⟨b', hb', hs'⟩ := ih hrec
        exact ⟨b', by simpa using hb', hs'⟩

theorem find_size_range_spec {size f t : Nat}
    (h : UniformStorage.find_size_range size = some (f, t)) :
    (f, t) ∈ SIZE_RANGES ∧ f < size ∧ size ≤ t := by
  have hm := List.mem_of_find?_eq_some h
  have hp := List.find?_some h
  simp only [Bool.and_eq_true, decide_eq_true_eq] at hp
  exact ⟨hm, hp.1, hp.2⟩

/-- Every row of the size-class table satisfies `Bucket::init`'s four
assertions. -/
theorem size_ranges_asserts :
    ∀ r ∈ SIZE_RANGES, MIN_UNIFORM_SIZE ≤ r.2 ∧ r.1 < MAX_UNIFORM_SIZE ∧
      r.2 ≤ MAX_UNIFORM_SIZE ∧ r.1 < r.2 := by
  decide

theorem size_range_of_mid {f t size : Nat} (hm : (f, t) ∈ SIZE_RANGES)
    (h1 : f < size) (h2 : size ≤ t) (h3 : 256 < size) (h4 : size ≤ 512) : t = 512 := by
  simp only [SIZE_RANGES, List.mem_cons, List.mem_singleton, Prod.mk.injEq,
    List.not_mem_nil, or_false] at hm
  rcases hm with ⟨rfl, rfl⟩ | ⟨rfl, rfl⟩ | ⟨rfl, rfl⟩ | ⟨rfl, rfl⟩ | ⟨rfl, rfl⟩ |
    ⟨rfl, rfl⟩ | ⟨rfl, rfl⟩ <;> omega

theorem find_size_range_mid {size : Nat} (h3 : 256 < size) (h4 : size ≤ 512) :
    UniformStorage.find_size_range size = some (256, 512) := by
  simp [UniformStorage.find_size_range, SIZE_RANGES, List.find?,
    show ¬ 8192 < size by omega, show ¬ 4096 < size by omega,
    show ¬ 2048 < size by omega, show ¬ 1024 < size by omega,
    show ¬ 512 < size by omega, h3, h4]

/-- `UniformWF` read off one bucket. -/
theorem uniformWF_spec {s : UniformStorage} (hwf : UniformWF s = true)
    {i : Nat} {b : Bucket} {a : BlockAllocator}
    (hb : s.buckets[i]? = some b) (ha : b.allocator = some a) :
    (b.from_, b.to_) ∈ SIZE_RANGES ∧ a.chunk_size = b.to_ := by
  have hmem : b ∈ s.buckets := List.getElem?_mem hb
  rw [UniformWF, List.all_eq_true] at hwf
  have hx := hwf b hmem
  unfold bucketWF at hx
  rw [ha] at hx
  simp only [Bool.and_eq_true, decide_eq_true_eq, beq_iff_eq] at hx
  exact hx

theorem uniformWF_new : UniformWF UniformStorage.new = true := rfl

theorem bucketWF_alloc {b : Bucket} {r : Option Nat} {b' : Bucket}
    (hwf : bucketWF b = true) (h : b.alloc = some (r, b')) : bucketWF b' = true := by
  unfold Bucket.alloc at h
  cases ha : b.allocator with
  | none => rw [ha] at h; cases h
  | some a =>
    simp only [ha, Option.some.injEq, Prod.mk.injEq] at h
    obtain ⟨-, hb'⟩ := h
    subst hb'
    unfold bucketWF at hwf ⊢
    rw [ha] at hwf
    simp only
    have hc : (a.allocate.2).chunk_size = a.chunk_size := by
      unfold BlockAllocator.allocate
      cases a.empty <;> rfl
    rw [hc]
    exact hwf

theorem bucketWF_dealloc {b : Bucket} {off : Nat} {alive : Bool} {b' : Bucket}
    (hwf : bucketWF b = true) (h : b.dealloc off = some (alive, b')) :
    bucketWF b' = true := by
  unfold Bucket.dealloc at h
  cases ha : b.allocator with
  | none => rw [ha] at h; cases h
  | some a =>
    simp only [ha] at h
    cases had : a.dealloc off with
    | none => rw [had] at h; cases h
    | some a2 =>
      simp only [had, Option.some.injEq, Prod.mk.injEq] at h
      obtain ⟨-, hb'⟩ := h
      subst hb'
      unfold bucketWF at hwf ⊢
      rw [ha] at hwf
      simp only
      have hc : a2.chunk_size = a.chunk_size := by
        rw [show a.dealloc off = (if off / a.chunk_size < a.chunk_count ∧
            off % a.chunk_size = 0 ∧ off / a.chunk_size ∉ a.empty then
              some (BlockAllocator.mk a.chunk_size a.chunk_count
                (off / a.chunk_size :: a.empty))
            else none) from rfl] at had
        split at had
        · cases had; rfl
        · cases had
      rw [hc]
      exact hwf

theorem bucketWF_init {b b' : Bucket} {f t : Nat} (hmem : (f, t) ∈ SIZE_RANGES)
    (h : b.init f t = some b') : bucketWF b' = true := by
  unfold Bucket.init at h
  split at h
  · cases h
    unfold bucketWF
    simp [BlockAllocator.new, hmem]
  · cases h

theorem bucketWF_release {b b' : Bucket} (h : b.release = some b') :
    bucketWF b' = true := by
  unfold Bucket.release at h
  split at h
  · cases h; rfl
  · cases h

theorem uniformWF_all_set {bs : List Bucket} {i : Nat} {b : Bucket}
    (hall : bs.all bucketWF = true) (hb : bucketWF b = true) :
    (bs.set i b).all bucketWF = true := by
  rw [List.all_eq_true] at hall ⊢
  intro x hx
  rcases List.mem_or_eq_of_mem_set hx with hx | hx
  · exact hall x hx
  · subst hx; exact hb

/-- `UniformWF` is preserved by a successful `push` (with either bucket
lookup path). -/
theorem uniformWF_push {s : UniformStorage} {size off : Nat} {s' : UniformStorage}
    (hwf : UniformWF s = true) (hp : s.push size = some (Except.ok (off, s'))) :
    UniformWF s' = true := by
  unfold UniformStorage.push at hp
  have hstep : ∀ (i : Nat) (s1 : UniformStorage), UniformWF s1 = true →
      (match s1.buckets[i]? with
        | none => none
        | some b =>
          match b.alloc with
          | none => none
          | some (optOffset, b') =>
            match optOffset with
            | none => some (Except.error RenderError.outOfAllocatedSpace)
            | some offset =>
              some (Except.ok (i * BUCKET_SIZE + offset,
                { s1 with buckets := s1.buckets.set i b' }))) =
        some (Except.ok (off, s')) →
      UniformWF s' = true := by
    intro i s1 hwf1 hp1
    cases hbi : s1.buckets[i]? with
    | none => rw [hbi] at hp1; cases hp1
    | some b =>
      simp only [hbi] at hp1
      cases hba : b.alloc with
      | none => rw [hba] at hp1; cases hp1
      | some pr =>
        obtain ⟨optOffset, b'⟩ := pr
        simp only [hba] at hp1
        cases optOffset with
        | none => simp at hp1
        | some offv =>
          simp only [Option.some.injEq, Except.ok.injEq, Prod.mk.injEq] at hp1
          obtain ⟨-, hs'⟩ := hp1
          subst hs'
          have hbWF : bucketWF b = true := by
            rw [UniformWF, List.all_eq_true] at hwf1
            exact hwf1 b (List.getElem?_mem hbi)
          exact uniformWF_all_set hwf1 (bucketWF_alloc hbWF hba)
  cases hfb : s.find_bucket_index size with
  | some i =>
    simp only [hfb] at hp
    exact hstep i s hwf hp
  | none =>
    simp only [hfb] at hp
    unfold UniformStorage.allocate_bucket at hp
    cases hfsr : UniformStorage.find_size_range size with
    | none => rw [hfsr] at hp; cases hp
    | some r =>
      obtain ⟨f, t⟩ := r
      have hmem : (f, t) ∈ SIZE_RANGES := (find_size_range_spec hfsr).1
      simp only [hfsr] at hp
      cases hfree : s.free_buckets with
      | cons fb rest =>
        simp only [hfree] at hp
        cases hbf : s.buckets[fb]? with
        | none => rw [hbf] at hp; cases hp
        | some bf =>
          simp only [hbf] at hp
          cases hin : bf.init f t with
          | none => rw [hin] at hp; cases hp
          | some b1 =>
            simp only [hin] at hp
            exact hstep fb ⟨s.buckets.set fb b1, rest⟩
              (uniformWF_all_set hwf (bucketWF_init hmem hin)) hp
      | nil =>
        simp only [hfree] at hp
        by_cases hcap : s.buckets.length = BUCKET_COUNT
        · rw [if_pos hcap] at hp
          simp at hp
        · rw [if_neg hcap] at hp
          cases hin : bucketDefault.init f t with
          | none => rw [hin] at hp; cases hp
          | some b1 =>
            simp only [hin] at hp
            refine hstep s.buckets.length ⟨s.buckets ++ [b1], []⟩ ?_ hp
            rw [UniformWF, List.all_eq_true]
            intro x hx
            rcases List.mem_append.mp hx with hx | hx
            · rw [UniformWF, List.all_eq_true] at hwf
              exact hwf x hx
            · rw [List.mem_singleton] at hx
              subst hx
              exact bucketWF_init hmem hin

/-- `UniformWF` is preserved by a successful `dealloc` (both the keep-bucket
and the release-bucket outcomes). -/
theorem uniformWF_dealloc {s : UniformStorage} {off : Nat} {s' : UniformStorage}
    (hwf : UniformWF s = true) (hd : s.dealloc off = some s') :
    UniformWF s' = true := by
  rw [show s.dealloc off = (match s.buckets[off / BUCKET_SIZE]? with
      | none => none
      | some b =>
        match b.dealloc (off - off / BUCKET_SIZE * BUCKET_SIZE) with
        | none => none
        | some (alive, b') =>
          if alive then some { s with buckets := s.buckets.set (off / BUCKET_SIZE) b' }
          else
            match b'.release with
            | some br => some (UniformStorage.mk (s.buckets.set (off / BUCKET_SIZE) br)
                (off / BUCKET_SIZE :: s.free_buckets))
            | none => none) from rfl] at hd
  cases hbi : s.buckets[off / BUCKET_SIZE]? with
  | none => rw [hbi] at hd; cases hd
  | some b =>
    simp only [hbi] at hd
    cases hbd : b.dealloc (off - off / BUCKET_SIZE * BUCKET_SIZE) with
    | none => rw [hbd] at hd; cases hd
    | some pr =>
      obtain ⟨alive, b'⟩ := pr
      simp only [hbd] at hd
      have hbWF : bucketWF b = true := by
        rw [UniformWF, List.all_eq_true] at hwf
        exact hwf b (List.getElem?_mem hbi)
      cases alive with
      | true =>
        simp only [if_true] at hd
        cases hd
        exact uniformWF_all_set hwf (bucketWF_dealloc hbWF hbd)
      | false =>
        simp only [Bool.false_eq_true, if_false] at hd
        cases hrel : b'.release with
        | none => rw [hrel] at hd; cases hd
        | some br =>
          simp only [hrel] at hd
          cases hd
          exact uniformWF_all_set hwf (bucketWF_release hrel)

set_option maxRecDepth 4000 in
/-- Claim C7: (1) in a well-formed slab, a successful `push` of a size in
`(256, 512]` lands in a bucket of stride 512: the returned offset is
`bucket_index * BUCKET_SIZE + k * 512` for some block index `k`.
(2) Deallocating the last live block of a bucket releases the bucket back to
the free-bucket pool (`allocator` cleared, index pushed on `free_buckets`),
and a subsequent push of any size class — when no initialized bucket is
suitable — re-initializes that same bucket index, returning an offset in the
same underlying byte range `[idx * BUCKET_SIZE, …)`. -/
theorem uniform_bucket_stride_and_reuse :
    (∀ (s : UniformStorage) (size off : Nat) (s' : UniformStorage),
      UniformWF s = true → 256 < size → size ≤ 512 →
      s.push size = some (Except.ok (off, s')) →
      ∃ i k, off = i * BUCKET_SIZE + k * 512) ∧
    (∀ (s : UniformStorage) (idx loc : Nat) (b : Bucket) (a : BlockAllocator),
      s.buckets[idx]? = some b → b.allocated = 1 → b.allocator = some a →
      loc < BUCKET_SIZE → loc % a.chunk_size = 0 → loc / a.chunk_size < a.chunk_count →
      loc / a.chunk_size ∉ a.empty →
      ∃ s', s.dealloc (idx * BUCKET_SIZE + loc) = some s' ∧
        s'.buckets[idx]? = some (Bucket.mk 0 0 0 0 none) ∧
        s'.free_buckets = idx :: s.free_buckets ∧
        (∀ size' f' t', UniformStorage.find_size_range size' = some (f', t') →
          s'.find_bucket_index size' = none →
          ∃ s'', s'.push size' = some (Except.ok (idx * BUCKET_SIZE, s'')))) := by
  constructor
  · intro s size off s' hwf h3 h4 hpush
    unfold UniformStorage.push at hpush
    cases hfb : s.find_bucket_index size with
    | some i =>
      obtain ⟨b, hb, hsuit⟩ := positionSuitable_spec hfb
      simp only [hfb, hb] at hpush
      simp only [Bucket.is_suitable, Bool.and_eq_true, decide_eq_true_eq,
        Option.isSome_iff_exists] at hsuit
      obtain ⟨⟨⟨⟨a, ha⟩, -⟩, hfrom⟩, hto⟩ := hsuit
      obtain ⟨hmem, hchunk⟩ := uniformWF_spec hwf hb ha
      have h512 : b.to_ = 512 := size_range_of_mid hmem hfrom hto h3 h4
      unfold Bucket.alloc at hpush
      simp only [ha] at hpush
      cases hae : a.empty with
      | nil =>
        have hAl : a.allocate = (none, a) := by
          unfold BlockAllocator.allocate
          rw [hae]
        simp only [hAl] at hpush
        simp at hpush
      | cons slot rest =>
        have hAl : a.allocate = (some (slot * a.chunk_size),
            BlockAllocator.mk a.chunk_size a.chunk_count rest) := by
          unfold BlockAllocator.allocate
          rw [hae]
        simp only [hAl] at hpush
        simp only [Option.some.injEq, Except.ok.injEq, Prod.mk.injEq] at hpush
        obtain ⟨hoff, -⟩ := hpush
        exact ⟨i, slot, by rw [← hoff, hchunk, h512]⟩
    | none =>
      simp only [hfb] at hpush
      unfold UniformStorage.allocate_bucket at hpush
      simp only [find_size_range_mid h3 h4] at hpush
      cases hfree : s.free_buckets with
      | cons f rest =>
        simp only [hfree] at hpush
        cases hbf : s.buckets[f]? with
        | none =>
          simp only [hbf] at hpush
          simp at hpush
        | some bf =>
          simp only [hbf] at hpush
          have hinit : bf.init 256 512 = some (Bucket.mk 256 512 0 (BUCKET_SIZE / 512)
              (some (BlockAllocator.new 512 (UNIFORM_BUFFER_SIZE / 512)))) := by
            unfold Bucket.init
            rw [if_pos (by decide)]
          simp only [hinit] at hpush
          have hlt : f < s.buckets.length := (List.getElem?_eq_some.mp hbf).1
          have hset : (s.buckets.set f (Bucket.mk 256 512 0 (BUCKET_SIZE / 512)
              (some (BlockAllocator.new 512 (UNIFORM_BUFFER_SIZE / 512)))))[f]? =
              some (Bucket.mk 256 512 0 (BUCKET_SIZE / 512)
                (some (BlockAllocator.new 512 (UNIFORM_BUFFER_SIZE / 512)))) := by
            rw [List.getElem?_set, if_pos rfl, if_pos hlt]
          simp only [hset] at hpush
          obtain ⟨b2, hal⟩ : ∃ b2, (Bucket.mk 256 512 0 (BUCKET_SIZE / 512)
              (some (BlockAllocator.new 512 (UNIFORM_BUFFER_SIZE / 512)))).alloc =
              some (some (0 * 512), b2) := by
            unfold Bucket.alloc BlockAllocator.allocate BlockAllocator.new
            simp only
            rw [show UNIFORM_BUFFER_SIZE / 512 = 16383 + 1 from by decide,
              List.range_succ_eq_map]
            exact ⟨_, rfl⟩
          rw [hal] at hpush
          simp only [Option.some.injEq, Except.ok.injEq, Prod.mk.injEq] at hpush
          obtain ⟨hoff, -⟩ := hpush
          exact ⟨f, 0, by rw [← hoff]⟩
      | nil =>
        simp only [hfree] at hpush
        by_cases hcap : s.buckets.length = BUCKET_COUNT
        · rw [if_pos hcap] at hpush
          simp at hpush
        · rw [if_neg hcap] at hpush
          have hinit : bucketDefault.init 256 512 =
              some (Bucket.mk 256 512 0 (BUCKET_SIZE / 512)
                (some (BlockAllocator.new 512 (UNIFORM_BUFFER_SIZE / 512)))) := by
            unfold Bucket.init
            rw [if_pos (by decide)]
          simp only [hinit] at hpush
          have hset : ((s.buckets ++ [Bucket.mk 256 512 0 (BUCKET_SIZE / 512)
              (some (BlockAllocator.new 512
                (UNIFORM_BUFFER_SIZE / 512)))]))[s.buckets.length]? =
              some (Bucket.mk 256 512 0 (BUCKET_SIZE / 512)
                (some (BlockAllocator.new 512 (UNIFORM_BUFFER_SIZE / 512)))) := by
            rw [List.getElem?_append_right (Nat.le_refl _)]
            simp
          simp only [hset] at hpush
          obtain ⟨b2, hal⟩ : ∃ b2, (Bucket.mk 256 512 0 (BUCKET_SIZE / 512)
              (some (BlockAllocator.new 512 (UNIFORM_BUFFER_SIZE / 512)))).alloc =
              some (some (0 * 512), b2) := by
            unfold Bucket.alloc BlockAllocator.allocate BlockAllocator.new
            simp only
            rw [show UNIFORM_BUFFER_SIZE / 512 = 16383 + 1 from by decide,
              List.range_succ_eq_map]
            exact ⟨_, rfl⟩
          rw [hal] at hpush
          simp only [Option.some.injEq, Except.ok.injEq, Prod.mk.injEq] at hpush
          obtain ⟨hoff, -⟩ := hpush
          exact ⟨s.buckets.length, 0, by rw [← hoff]⟩
  · intro s idx loc b a hb hallocd ha hloc hmod hcnt hnotin
    have hlt : idx < s.buckets.length := (List.getElem?_eq_some.mp hb).1
    have hdiv : (idx * BUCKET_SIZE + loc) / BUCKET_SIZE = idx := by
      rw [show BUCKET_SIZE = 65535 from rfl]
      rw [show BUCKET_SIZE = 65535 from rfl] at hloc
      omega
    have hadealloc : a.dealloc loc =
        some (BlockAllocator.mk a.chunk_size a.chunk_count
          (loc / a.chunk_size :: a.empty)) := by
      unfold BlockAllocator.dealloc
      rw [if_pos ⟨hcnt, hmod, hnotin⟩]
    have hbdealloc : b.dealloc loc = some (false,
        Bucket.mk b.from_ b.to_ 0 (b.free + 1)
          (some (BlockAllocator.mk a.chunk_size a.chunk_count
            (loc / a.chunk_size :: a.empty)))) := by
      unfold Bucket.dealloc
      rw [ha]
      simp only [hadealloc, hallocd]
      rfl
    have hrelease : (Bucket.mk b.from_ b.to_ 0 (b.free + 1)
        (some (BlockAllocator.mk a.chunk_size a.chunk_count
          (loc / a.chunk_size :: a.empty)))).release =
        some (Bucket.mk 0 0 0 0 none) := by
      unfold Bucket.release
      rw [if_pos rfl]
    refine ⟨⟨s.buckets.set idx (Bucket.mk 0 0 0 0 none), idx :: s.free_buckets⟩,
      ?_, ?_, rfl, ?_⟩
    · unfold UniformStorage.dealloc
      simp only [hdiv, Nat.add_sub_cancel_left, hb, hbdealloc, Bool.false_eq_true,
        if_false, hrelease]
    · simp only
      rw [List.getElem?_set, if_pos rfl, if_pos hlt]
    · intro size' f' t' hfsr hnone
      obtain ⟨hmem', hf', ht'⟩ := find_size_range_spec hfsr
      obtain ⟨hA1, hA2, hA3, hA4⟩ := size_ranges_asserts _ hmem'
      have htpos : 0 < t' := by omega
      have htle : t' ≤ UNIFORM_BUFFER_SIZE := by
        rw [show UNIFORM_BUFFER_SIZE = 8388608 from rfl]
        rw [show MAX_UNIFORM_SIZE = 16384 from rfl] at hA3
        omega
      obtain ⟨m, hm⟩ : ∃ m, UNIFORM_BUFFER_SIZE / t' = m + 1 :=
        ⟨UNIFORM_BUFFER_SIZE / t' - 1, by
          have := Nat.div_pos htle htpos
          omega⟩
      unfold UniformStorage.push
      simp only [hnone]
      unfold UniformStorage.allocate_bucket
      simp only [hfsr]
      have hgot : ((s.buckets.set idx (Bucket.mk 0 0 0 0 none)))[idx]? =
          some (Bucket.mk 0 0 0 0 none) := by
        rw [List.getElem?_set, if_pos rfl, if_pos hlt]
      simp only [hgot]
      have hinit : (Bucket.mk 0 0 0 0 none).init f' t' =
          some (Bucket.mk f' t' 0 (BUCKET_SIZE / t')
            (some (BlockAllocator.new t' (UNIFORM_BUFFER_SIZE / t')))) := by
        unfold Bucket.init
        rw [if_pos ⟨hA1, hA2, hA3, hA4⟩]
      simp only [hinit]
      have hgot2 : (((s.buckets.set idx (Bucket.mk 0 0 0 0 none)).set idx
          (Bucket.mk f' t' 0 (BUCKET_SIZE / t')
            (some (BlockAllocator.new t' (UNIFORM_BUFFER_SIZE / t'))))))[idx]? =
          some (Bucket.mk f' t' 0 (BUCKET_SIZE / t')
            (some (BlockAllocator.new t' (UNIFORM_BUFFER_SIZE / t')))) := by
        rw [List.getElem?_set, if_pos rfl, if_pos (by simpa using hlt)]
      simp only [hgot2]
      obtain ⟨b2, hal⟩ : ∃ b2, (Bucket.mk f' t' 0 (BUCKET_SIZE / t')
          (some (BlockAllocator.new t' (UNIFORM_BUFFER_SIZE / t')))).alloc =
          some (some (0 * t'), b2) := by
        unfold Bucket.alloc BlockAllocator.allocate BlockAllocator.new
        simp only
        rw [hm, List.range_succ_eq_map]
        exact ⟨_, rfl⟩
      simp only [hal, Nat.zero_mul, Nat.add_zero]
      exact ⟨_, rfl⟩

/-- Witness for `uniform_bucket_stride_and_reuse`: pushing a 300-byte value
into a well-formed slab with one suitable bucket lands at an offset of the
form `i * BUCKET_SIZE + k * 512` (here `0 * 65535 + 2 * 512 = 1024`); and on
a one-bucket slab whose single block is live, deallocating
offset `0 * BUCKET_SIZE + 0` releases bucket 0 to the free pool, after which
a push of a size in any class — with no suitable bucket initialized — reuses
bucket index 0 (offset `0 * BUCKET_SIZE`). -/
theorem uniform_bucket_stride_and_reuse_witness :
    (∃ i k, (1024 : Nat) = i * BUCKET_SIZE + k * 512) ∧
    (∃ s', (UniformStorage.mk
        [Bucket.mk 256 512 1 126 (some (BlockAllocator.mk 512 4 [1, 2, 3]))]
        []).dealloc (0 * BUCKET_SIZE + 0) = some s' ∧
      s'.buckets[0]? = some (Bucket.mk 0 0 0 0 none) ∧
      s'.free_buckets = 0 :: ([] : List Nat) ∧
      (∀ size' f' t', UniformStorage.find_size_range size' = some (f', t') →
        s'.find_bucket_index size' = none →
        ∃ s'', s'.push size' = some (Except.ok (0 * BUCKET_SIZE, s'')))) := by
  constructor
  · have hpush : (UniformStorage.mk
        [Bucket.mk 256 512 0 5 (some (BlockAllocator.mk 512 4 [2, 3]))] []).push 300 =
        some (Except.ok (1024, UniformStorage.mk
          [Bucket.mk 256 512 1 4 (some (BlockAllocator.mk 512 4 [3]))] [])) := by
      decide
    exact uniform_bucket_stride_and_reuse.1 (UniformStorage.mk
      [Bucket.mk 256 512 0 5 (some (BlockAllocator.mk 512 4 [2, 3]))] [])
      300 1024 _ (by decide) (by decide) (by decide) hpush
  · exact uniform_bucket_stride_and_reuse.2 (UniformStorage.mk
      [Bucket.mk 256 512 1 126 (some (BlockAllocator.mk 512 4 [1, 2, 3]))] []) 0 0
      (Bucket.mk 256 512 1 126 (some (BlockAllocator.mk 512 4 [1, 2, 3])))
      (BlockAllocator.mk 512 4 [1, 2, 3])
      rfl rfl rfl (by decide) (by decide) (by decide) (by decide)

/-- Claim C8: purging an already-empty `DropList` destroys nothing, reports
no error and leaves the storage untouched; and after any successful purge
every internal bucket is empty (the resulting list is `DropList::default()`),
so an immediately following purge destroys nothing. -/
theorem drop_list_purge_idempotent :
    (∀ u : UniformStorage, DropList.new.purge u = some (PurgeBatch.empty, DropList.new, u)) ∧
    (∀ (d : DropList) (u : UniformStorage) (b : PurgeBatch) (d' : DropList)
      (u' : UniformStorage), d.purge u = some (b, d', u') →
      d' = DropList.new ∧ d'.purge u' = some (PurgeBatch.empty, DropList.new, u')) := by
  have hempty : ∀ u : UniformStorage,
      DropList.new.purge u = some (PurgeBatch.empty, DropList.new, u) := by
    intro u
    simp [DropList.purge, DropList.new, purgeUniforms, PurgeBatch.empty]
  refine ⟨hempty, ?_⟩
  intro d u b d' u' h
  unfold DropList.purge at h
  rcases hu : purgeUniforms d.uniforms_to_free u with _ | u''
  · rw [hu] at h; exact absurd h (by simp)
  · rw [hu] at h
    simp only [Option.some.injEq, Prod.mk.injEq] at h
    obtain ⟨-, hd', hu'⟩ := h
    subst hd' hu'
    exact ⟨rfl, hempty u''⟩

/-- Witness for `drop_list_purge_idempotent`: a drop list holding one queued
image purges to the empty list (emitting that image for destruction), and
the second purge emits nothing. -/
theorem drop_list_purge_idempotent_witness :
    (DropList.mk [] [7] [] [] [] []).purge ⟨[], []⟩ =
      some (⟨[], [7], [], [], [], []⟩, DropList.new, ⟨[], []⟩) ∧
    DropList.new.purge ⟨[], []⟩ = some (PurgeBatch.empty, DropList.new, ⟨[], []⟩) :=
  ⟨by decide,
   (drop_list_purge_idempotent.2 (DropList.mk [] [7] [] [] [] []) ⟨[], []⟩
      ⟨[], [7], [], [], [], []⟩ DropList.new ⟨[], []⟩ (by decide)).2⟩

/-- Witness for `pbr_material_emission_dropped`: for the material with
distinct valid textures `base 2, normal 3, metallic-roughness 4,
occlusion 5, emission 6` and an empty starting set, the collected set
contains `5` (occlusion) and misses `6` (emission). -/
theorem pbr_material_emission_dropped_witness :
    (5 : Nat) ∈ (PbrMaterial.mk 2 3 4 5 6).collect_dependencies ∅ ∧
    (6 : Nat) ∉ (PbrMaterial.mk 2 3 4 5 6).collect_dependencies ∅ :=
  pbr_material_emission_dropped (PbrMaterial.mk 2 3 4 5 6) ∅
    (by decide) (by decide) (by decide) (by decide) (by decide) (by decide) (by decide)

/-! ## DynamicAllocator: list helpers -/

theorem getElem?_append_cons {α : Type*} (L : List α) (b : α) (R : List α) :
    (L ++ b :: R)[L.length]? = some b := by
  rw [List.getElem?_append_right (le_refl _), Nat.sub_self]
  simp

theorem set_append_cons {α : Type*} (L : List α) (b b2 : α) (R : List α) :
    (L ++ b :: R).set L.length b2 = L ++ b2 :: R := by
  induction L with
  | nil => rfl
  | cons a L ih => simp [List.set_cons_succ, ih]

theorem insertIdx_append_cons {α : Type*} (L : List α) (b x : α) (R : List α) :
    List.insertIdx (L.length + 1) x (L ++ b :: R) = L ++ b :: x :: R := by
  induction L with
  | nil => simp [List.insertIdx_succ_cons, List.insertIdx_zero]
  | cons a L ih => simp [List.insertIdx_succ_cons] at ih ⊢; exact ih

theorem insertIdx_append {α : Type*} (L : List α) (x : α) (R : List α) :
    List.insertIdx L.length x (L ++ R) = L ++ x :: R := by
  induction L with
  | nil => simp [List.insertIdx_zero]
  | cons a L ih => simp [List.insertIdx_succ_cons] at ih ⊢; exact ih

/-! ## DynamicAllocator: block sums -/

theorem blockSum_append (X Y : List Block) :
    blockSum (X ++ Y) = blockSum X + blockSum Y := by
  simp [blockSum]

theorem blockSum_cons (b : Block) (bs : List Block) :
    blockSum (b :: bs) = blockLen b + blockSum bs := by
  simp [blockSum]

/-! ## DynamicAllocator: `noAdjFree` as a `Chain'` -/

theorem noAdjFree_iff_chain (bs : List Block) :
    noAdjFree bs = true ↔ List.Chain' NotBothFree bs := by
  induction bs with
  | nil => simp [noAdjFree]
  | cons a rest ih =>
    cases rest with
    | nil => simp [noAdjFree]
    | cons b rest2 =>
      rw [show noAdjFree (a :: b :: rest2) =
          ((!(isFree a && isFree b)) && noAdjFree (b :: rest2)) from rfl,
        List.chain'_cons, ← ih]
      unfold NotBothFree
      cases ha : isFree a <;> cases hb : isFree b <;> simp [ha, hb]

/-! ## DynamicAllocator: the forward merge loop -/

theorem mergeForward_sum (fuel : Nat) : ∀ bs : List Block,
    blockSum (mergeForward fuel bs) = blockSum bs := by
  induction fuel with
  | zero =>
    intro bs
    rcases bs with _ | ⟨b1, _ | ⟨b2, rest⟩⟩
    · rfl
    · cases b1 <;> rfl
    · cases b1 <;> cases b2 <;> rfl
  | succ f ih =>
    intro bs
    rcases bs with _ | ⟨b1, _ | ⟨b2, rest⟩⟩
    · rfl
    · cases b1 <;> rfl
    · cases b1 with
      | Used o l => rfl
      | Free o l =>
        cases b2 with
        | Used o2 l2 => rfl
        | Free o2 l2 =>
          rw [show mergeForward (f + 1) (Block.Free o l :: Block.Free o2 l2 :: rest) =
              mergeForward f (Block.Free o (l + l2) :: rest) from rfl, ih]
          simp [blockSum_cons, blockLen]
          omega

theorem mergeForward_chain (fuel : Nat) : ∀ bs : List Block, bs.length ≤ fuel + 1 →
    List.Chain' NotBothFree bs.tail → List.Chain' NotBothFree (mergeForward fuel bs) := by
  induction fuel with
  | zero =>
    intro bs hlen _
    rcases bs with _ | ⟨b1, _ | ⟨b2, rest⟩⟩
    · exact List.chain'_nil
    · cases b1 <;> exact List.chain'_singleton _
    · simp at hlen
  | succ f ih =>
    intro bs hlen htail
    rcases bs with _ | ⟨b1, _ | ⟨b2, rest⟩⟩
    · exact List.chain'_nil
    · cases b1 <;> exact List.chain'_singleton _
    · cases b1 with
      | Used o l =>
        show List.Chain' NotBothFree (Block.Used o l :: b2 :: rest)
        exact List.chain'_cons.2 ⟨Or.inl rfl, htail⟩
      | Free o l =>
        cases b2 with
        | Used o2 l2 =>
          show List.Chain' NotBothFree (Block.Free o l :: Block.Used o2 l2 :: rest)
          exact List.chain'_cons.2 ⟨Or.inr rfl, htail⟩
        | Free o2 l2 =>
          rw [show mergeForward (f + 1) (Block.Free o l :: Block.Free o2 l2 :: rest) =
              mergeForward f (Block.Free o (l + l2) :: rest) from rfl]
          apply ih
          · simp at hlen ⊢; omega
          · exact htail.tail

/-- The fuel `blocks.length` passed by `merge_free_blocks` is irrelevant:
any fuel of at least `bs.length - 1` computes the loop's fixpoint. -/
theorem mergeForward_fuel_irrelevant : ∀ (f1 f2 : Nat) (bs : List Block),
    bs.length ≤ f1 + 1 → bs.length ≤ f2 + 1 →
    mergeForward f1 bs = mergeForward f2 bs := by
  intro f1
  induction f1 with
  | zero =>
    intro f2 bs h1 _
    rcases bs with _ | ⟨b1, _ | ⟨b2, rest⟩⟩
    · cases f2 <;> rfl
    · cases f2 <;> cases b1 <;> rfl
    · simp at h1
  | succ f ih =>
    intro f2 bs h1 h2
    rcases bs with _ | ⟨b1, _ | ⟨b2, rest⟩⟩
    · cases f2 <;> rfl
    · cases f2 <;> cases b1 <;> rfl
    · cases b1 with
      | Used o l => cases f2 <;> rfl
      | Free o l =>
        cases b2 with
        | Used o2 l2 => cases f2 <;> rfl
        | Free o2 l2 =>
          cases f2 with
          | zero => simp at h2
          | succ g =>
            rw [show mergeForward (f + 1) (Block.Free o l :: Block.Free o2 l2 :: rest) =
                mergeForward f (Block.Free o (l + l2) :: rest) from rfl,
              show mergeForward (g + 1) (Block.Free o l :: Block.Free o2 l2 :: rest) =
                mergeForward g (Block.Free o (l + l2) :: rest) from rfl]
            apply ih
            · simp at h1 ⊢; omega
            · simp at h2 ⊢; omega

/-! ## DynamicAllocator: the backward walk -/

theorem walkBack_succ (blocks : List Block) (i : Nat) :
    walkBack blocks (i + 1) = if freeAt blocks i then walkBack blocks i else i + 1 := rfl

theorem freeAt_append_cons (L : List Block) (b : Block) (R : List Block) :
    freeAt (L ++ b :: R) L.length = isFree b := by
  unfold freeAt
  rw [getElem?_append_cons]
  cases b <;> rfl

/-- Started at the position right after a `Chain'`-clean prefix `L`, the
backward walk stops at `L.length` when `L` does not end in a `Free` block,
and exactly one position earlier when it does. -/
theorem walkBack_spec (L R : List Block) (hC : List.Chain' NotBothFree L) :
    (walkBack (L ++ R) L.length = L.length ∧
      ∀ b, L.getLast? = some b → isFree b = false) ∨
    (∃ L2 b, L = L2 ++ [b] ∧ isFree b = true ∧
      walkBack (L ++ R) L.length = L2.length ∧
      ∀ b2, L2.getLast? = some b2 → isFree b2 = false) := by
  rcases List.eq_nil_or_concat L with rfl | ⟨L2, b, rfl⟩
  · exact Or.inl ⟨rfl, by simp⟩
  simp only [List.concat_eq_append] at hC ⊢
  have hlen : (L2 ++ [b]).length = L2.length + 1 := by simp
  have hassoc : (L2 ++ [b]) ++ R = L2 ++ (b :: R) := by simp
  have hfb : freeAt ((L2 ++ [b]) ++ R) L2.length = isFree b := by
    rw [hassoc]; exact freeAt_append_cons L2 b R
  cases hb : isFree b with
  | false =>
    left
    constructor
    · rw [hlen, walkBack_succ, hfb, hb]
      simp
    · intro b2 hlast
      rw [List.getLast?_concat] at hlast
      cases hlast
      exact hb
  | true =>
    right
    refine ⟨L2, b, rfl, hb, ?_, ?_⟩
    · rw [hlen, walkBack_succ, hfb, hb]
      simp only [if_true]
      rcases List.eq_nil_or_concat L2 with rfl | ⟨L3, b2, rfl⟩
      · rfl
      simp only [List.concat_eq_append] at hC ⊢
      have hlen3 : (L3 ++ [b2]).length = L3.length + 1 := by simp
      have hassoc3 : ((L3 ++ [b2]) ++ [b]) ++ R = L3 ++ (b2 :: ([b] ++ R)) := by simp
      have hfb3 : freeAt (((L3 ++ [b2]) ++ [b]) ++ R) L3.length = isFree b2 := by
        rw [hassoc3]; exact freeAt_append_cons L3 b2 ([b] ++ R)
      have hb2 : isFree b2 = false := by
        rcases (List.chain'_append.1 hC).2.2 b2
            (by simp [List.getLast?_concat]) b rfl with h | h
        · exact h
        · rw [hb] at h; cases h
      rw [hlen3, walkBack_succ, hfb3, hb2]
      simp
    · intro b2 hlast
      obtain ⟨L3, rfl⟩ := List.getLast?_eq_some_iff.1 hlast
      rcases (List.chain'_append.1 hC).2.2 b2
          (by simp [List.getLast?_concat]) b rfl with h | h
      · exact h
      · rw [hb] at h; cases h

/-! ## DynamicAllocator: search specifications -/

theorem find_first_free_spec : ∀ (bs : List Block) (s i : Nat),
    find_first_free_block s bs = some i →
    ∃ L o len R, bs = L ++ Block.Free o len :: R ∧ L.length = i ∧ s ≤ len := by
  intro bs
  induction bs with
  | nil => intro s i h; cases h
  | cons b rest ih =>
    intro s i h
    cases b with
    | Free o len =>
      rw [show find_first_free_block s (Block.Free o len :: rest) =
          (if s ≤ len then some 0
           else (find_first_free_block s rest).map (· + 1)) from rfl] at h
      by_cases hs : s ≤ len
      · rw [if_pos hs] at h
        cases h
        exact ⟨[], o, len, rest, rfl, rfl, hs⟩
      · rw [if_neg hs] at h
        obtain ⟨j, hj, rfl⟩ := Option.map_eq_some'.1 h
        obtain ⟨L, o2, len2, R, rfl, rfl, hs2⟩ := ih s j hj
        exact ⟨Block.Free o len :: L, o2, len2, R, rfl, rfl, hs2⟩
    | Used o len =>
      rw [show find_first_free_block s (Block.Used o len :: rest) =
          (find_first_free_block s rest).map (· + 1) from rfl] at h
      obtain ⟨j, hj, rfl⟩ := Option.map_eq_some'.1 h
      obtain ⟨L, o2, len2, R, rfl, rfl, hs2⟩ := ih s j hj
      exact ⟨Block.Used o len :: L, o2, len2, R, rfl, rfl, hs2⟩

theorem find_last_free_spec : ∀ (bs : List Block) (s i : Nat),
    find_last_free_block s bs = some i →
    ∃ L o len R, bs = L ++ Block.Free o len :: R ∧ L.length = i ∧ s ≤ len := by
  intro bs
  induction bs with
  | nil => intro s i h; cases h
  | cons b rest ih =>
    intro s i h
    cases b with
    | Free o len =>
      rw [show find_last_free_block s (Block.Free o len :: rest) =
          ((find_last_free_block s rest).map (· + 1)).or
            (if s ≤ len then some 0 else none) from rfl] at h
      cases hr : find_last_free_block s rest with
      | some j =>
        rw [hr, Option.map_some'] at h
        rw [show (some (j + 1)).or (if s ≤ len then some 0 else none) =
            some (j + 1) from rfl] at h
        obtain rfl := Option.some.inj h
        obtain ⟨L, o2, len2, R, rfl, rfl, hs2⟩ := ih s j hr
        exact ⟨Block.Free o len :: L, o2, len2, R, rfl, rfl, hs2⟩
      | none =>
        rw [hr, Option.map_none', Option.none_or] at h
        by_cases hs : s ≤ len
        · rw [if_pos hs] at h
          obtain rfl := Option.some.inj h
          exact ⟨[], o, len, rest, rfl, rfl, hs⟩
        · rw [if_neg hs] at h
          cases h
    | Used o len =>
      rw [show find_last_free_block s (Block.Used o len :: rest) =
          ((find_last_free_block s rest).map (· + 1)).or none from rfl] at h
      cases hr : find_last_free_block s rest with
      | some j =>
        rw [hr, Option.map_some'] at h
        rw [show (some (j + 1)).or (none : Option Nat) = some (j + 1) from rfl] at h
        obtain rfl := Option.some.inj h
        obtain ⟨L, o2, len2, R, rfl, rfl, hs2⟩ := ih s j hr
        exact ⟨Block.Used o len :: L, o2, len2, R, rfl, rfl, hs2⟩
      | none =>
        rw [hr, Option.map_none', Option.none_or] at h
        cases h

theorem find_used_spec : ∀ (bs : List Block) (off i : Nat),
    find_used_block off bs = some i →
    ∃ L len R, bs = L ++ Block.Used off len :: R ∧ L.length = i := by
  intro bs
  induction bs with
  | nil => intro off i h; cases h
  | cons b rest ih =>
    intro off i h
    cases b with
    | Used o len =>
      rw [show find_used_block off (Block.Used o len :: rest) =
          (if o = off then some 0
           else (find_used_block off rest).map (· + 1)) from rfl] at h
      by_cases ho : o = off
      · subst ho
        rw [if_pos rfl] at h
        cases h
        exact ⟨[], len, rest, rfl, rfl⟩
      · rw [if_neg ho] at h
        obtain ⟨j, hj, rfl⟩ := Option.map_eq_some'.1 h
        obtain ⟨L, len2, R, rfl, rfl⟩ := ih off j hj
        exact ⟨Block.Used o len :: L, len2, R, rfl, rfl⟩
    | Free o len =>
      rw [show find_used_block off (Block.Free o len :: rest) =
          (find_used_block off rest).map (· + 1) from rfl] at h
      obtain ⟨j, hj, rfl⟩ := Option.map_eq_some'.1 h
      obtain ⟨L, len2, R, rfl, rfl⟩ := ih off j hj
      exact ⟨Block.Free o len :: L, len2, R, rfl, rfl⟩

/-! ## DynamicAllocator: split specifications -/

theorem split_and_insert_spec (d : DynamicAllocator) (L : List Block) (o len : Nat)
    (R : List Block) (size : Nat) (hb : d.blocks = L ++ Block.Free o len :: R)
    (hal : align size d.granularity ≤ len) :
    d.split_and_insert_block L.length size =
      some (some o,
        { d with blocks :=
            (if 0 < len - (align size d.granularity) then
              L ++ Block.Used o (align size d.granularity) ::
                Block.Free (o + align size d.granularity)
                  (len - align size d.granularity) :: R
            else L ++ Block.Used o (align size d.granularity) :: R) }) := by
  simp only [DynamicAllocator.split_and_insert_block, hb, getElem?_append_cons]
  rw [if_pos hal]
  by_cases h0 : 0 < len - align size d.granularity
  · rw [if_pos h0, if_pos h0, set_append_cons, insertIdx_append_cons]
  · rw [if_neg h0, if_neg h0, set_append_cons]

theorem split_and_insert_end_spec (d : DynamicAllocator) (L : List Block) (o len : Nat)
    (R : List Block) (size : Nat) (hb : d.blocks = L ++ Block.Free o len :: R)
    (hal : align size d.granularity ≤ len) :
    d.split_and_insert_block_end L.length size =
      some (some (o + (len - align size d.granularity)),
        { d with blocks :=
            (if 0 < len - (align size d.granularity) then
              L ++ Block.Free o (len - align size d.granularity) ::
                Block.Used (o + (len - align size d.granularity))
                  (align size d.granularity) :: R
            else L ++ Block.Used (o + (len - align size d.granularity))
                (align size d.granularity) :: R) }) := by
  simp only [DynamicAllocator.split_and_insert_block_end, hb, getElem?_append_cons]
  rw [if_pos hal]
  by_cases h0 : 0 < len - align size d.granularity
  · rw [if_pos h0, if_pos h0, set_append_cons, insertIdx_append]
  · rw [if_neg h0, if_neg h0, set_append_cons]

/-! ## DynamicAllocator: `merge_free_blocks` preserves both invariants -/

theorem merge_free_blocks_sum (blocks : List Block) (i : Nat) :
    blockSum (merge_free_blocks blocks i) = blockSum blocks := by
  unfold merge_free_blocks
  rw [blockSum_append, mergeForward_sum, ← blockSum_append, List.take_append_drop]

theorem merge_free_blocks_chain (L : List Block) (o l : Nat) (R : List Block)
    (hCL : List.Chain' NotBothFree L) (hCR : List.Chain' NotBothFree R) :
    List.Chain' NotBothFree (merge_free_blocks (L ++ Block.Free o l :: R) L.length) := by
  unfold merge_free_blocks
  rcases walkBack_spec L (Block.Free o l :: R) hCL with
    ⟨hw, hlast⟩ | ⟨L2, b, rfl, hbf, hw, hlast⟩
  · rw [hw, List.take_left, List.drop_left]
    apply List.chain'_append.2
    refine ⟨hCL, ?_, ?_⟩
    · apply mergeForward_chain
      · simp only [List.length_cons, List.length_append]
        omega
      · exact hCR
    · intro x hx y _
      exact Or.inl (hlast x hx)
  · cases b with
    | Used bo bl => rw [show isFree (Block.Used bo bl) = false from rfl] at hbf; cases hbf
    | Free bo bl =>
      have hassoc : (L2 ++ [Block.Free bo bl]) ++ Block.Free o l :: R =
          L2 ++ (Block.Free bo bl :: Block.Free o l :: R) := by simp
      rw [hw, hassoc, List.take_left, List.drop_left]
      rw [mergeForward_fuel_irrelevant _ (R.length + 1 + 1) _ (by simp; omega) (by simp)]
      rw [show mergeForward (R.length + 1 + 1)
          (Block.Free bo bl :: Block.Free o l :: R) =
          mergeForward (R.length + 1) (Block.Free bo (bl + l) :: R) from rfl]
      apply List.chain'_append.2
      refine ⟨(List.chain'_append.1 hCL).1, ?_, ?_⟩
      · apply mergeForward_chain
        · simp only [List.length_cons]
          omega
        · exact hCR
      · intro x hx y _
        exact Or.inl (hlast x hx)

/-! ## DynamicAllocator: the public operations preserve `DynInv` -/

theorem dynInv_step {S : Nat} {d d2 : DynamicAllocator} {op : DynOp}
    (hI : DynInv S d) (h : d.step op = some d2) : DynInv S d2 := by
  obtain ⟨hsum, hchain⟩ := hI
  cases op with
  | alloc s =>
    simp only [DynamicAllocator.step] at h
    obtain ⟨⟨r, d3⟩, hall, hsnd⟩ := Option.map_eq_some'.1 h
    obtain rfl : d3 = d2 := hsnd
    cases hf : find_first_free_block s d.blocks with
    | none =>
      simp only [DynamicAllocator.allocate, hf] at hall
      injection hall with h1
      injection h1 with hr hd
      subst hd
      exact ⟨hsum, hchain⟩
    | some i =>
      simp only [DynamicAllocator.allocate, hf] at hall
      obtain ⟨L, o, len, R, hb, hi, hslen⟩ := find_first_free_spec d.blocks s i hf
      subst hi
      by_cases hal : align s d.granularity ≤ len
      · rw [split_and_insert_spec d L o len R s hb hal] at hall
        injection hall with h1
        injection h1 with hr hd
        subst hd
        rw [hb, blockSum_append, blockSum_cons] at hsum
        simp only [blockLen] at hsum
        rw [hb] at hchain
        obtain ⟨hCL, hC2, _⟩ := List.chain'_append.1 hchain
        obtain ⟨hhead, hCR⟩ := List.chain'_cons'.1 hC2
        have hRhead : ∀ y ∈ R.head?, isFree y = false := fun y hy =>
          (hhead y hy).resolve_left (by simp [isFree])
        constructor
        · show blockSum (if 0 < len - align s d.granularity then _ else _) = S
          by_cases h0 : 0 < len - align s d.granularity
          · rw [if_pos h0, blockSum_append, blockSum_cons, blockSum_cons]
            simp only [blockLen]
            omega
          · rw [if_neg h0, blockSum_append, blockSum_cons]
            simp only [blockLen]
            omega
        · show List.Chain' NotBothFree (if 0 < len - align s d.granularity then _ else _)
          by_cases h0 : 0 < len - align s d.granularity
          · rw [if_pos h0]
            apply List.chain'_append.2
            refine ⟨hCL, ?_, ?_⟩
            · apply List.chain'_cons'.2
              refine ⟨fun y _ => Or.inl rfl, ?_⟩
              exact List.chain'_cons'.2 ⟨fun y hy => Or.inr (hRhead y hy), hCR⟩
            · intro x _ y hy
              simp only [List.head?_cons, Option.mem_def, Option.some.injEq] at hy
              subst hy
              exact Or.inr rfl
          · rw [if_neg h0]
            apply List.chain'_append.2
            refine ⟨hCL, ?_, ?_⟩
            · exact List.chain'_cons'.2 ⟨fun y hy => Or.inl rfl, hCR⟩
            · intro x _ y hy
              simp only [List.head?_cons, Option.mem_def, Option.some.injEq] at hy
              subst hy
              exact Or.inr rfl
      · have hnone : d.split_and_insert_block L.length s = none := by
          simp only [DynamicAllocator.split_and_insert_block, hb, getElem?_append_cons]
          rw [if_neg hal]
        rw [hnone] at hall
        cases hall
  | allocBack s =>
    simp only [DynamicAllocator.step] at h
    obtain ⟨⟨r, d3⟩, hall, hsnd⟩ := Option.map_eq_some'.1 h
    obtain rfl : d3 = d2 := hsnd
    cases hf : find_last_free_block s d.blocks with
    | none =>
      simp only [DynamicAllocator.allocate_back, hf] at hall
      injection hall with h1
      injection h1 with hr hd
      subst hd
      exact ⟨hsum, hchain⟩
    | some i =>
      simp only [DynamicAllocator.allocate_back, hf] at hall
      obtain ⟨L, o, len, R, hb, hi, hslen⟩ := find_last_free_spec d.blocks s i hf
      subst hi
      by_cases hal : align s d.granularity ≤ len
      · rw [split_and_insert_end_spec d L o len R s hb hal] at hall
        injection hall with h1
        injection h1 with hr hd
        subst hd
        rw [hb, blockSum_append, blockSum_cons] at hsum
        simp only [blockLen] at hsum
        rw [hb] at hchain
        obtain ⟨hCL, hC2, hbd⟩ := List.chain'_append.1 hchain
        obtain ⟨hhead, hCR⟩ := List.chain'_cons'.1 hC2
        have hLlast : ∀ x ∈ L.getLast?, isFree x = false := fun x hx =>
          (hbd x hx (Block.Free o len) rfl).resolve_right (by simp [isFree])
        constructor
        · show blockSum (if 0 < len - align s d.granularity then _ else _) = S
          by_cases h0 : 0 < len - align s d.granularity
          · rw [if_pos h0, blockSum_append, blockSum_cons, blockSum_cons]
            simp only [blockLen]
            omega
          · rw [if_neg h0, blockSum_append, blockSum_cons]
            simp only [blockLen]
            omega
        · show List.Chain' NotBothFree (if 0 < len - align s d.granularity then _ else _)
          by_cases h0 : 0 < len - align s d.granularity
          · rw [if_pos h0]
            apply List.chain'_append.2
            refine ⟨hCL, ?_, ?_⟩
            · apply List.chain'_cons'.2
              refine ⟨?_, ?_⟩
              · intro y hy
                simp only [List.head?_cons, Option.mem_def, Option.some.injEq] at hy
                subst hy
                exact Or.inr rfl
              · exact List.chain'_cons'.2 ⟨fun y _ => Or.inl rfl, hCR⟩
            · intro x hx y hy
              exact Or.inl (hLlast x hx)
          · rw [if_neg h0]
            apply List.chain'_append.2
            refine ⟨hCL, ?_, ?_⟩
            · exact List.chain'_cons'.2 ⟨fun y _ => Or.inl rfl, hCR⟩
            · intro x hx y hy
              exact Or.inl (hLlast x hx)
      · have hnone : d.split_and_insert_block_end L.length s = none := by
          simp only [DynamicAllocator.split_and_insert_block_end, hb, getElem?_append_cons]
          rw [if_neg hal]
        rw [hnone] at hall
        cases hall
  | dealloc off =>
    simp only [DynamicAllocator.step] at h
    cases hf : find_used_block off d.blocks with
    | none =>
      simp only [DynamicAllocator.deallocate, hf] at h
      cases h
    | some i =>
      obtain ⟨L, len, R, hb, hi⟩ := find_used_spec d.blocks off i hf
      subst hi
      simp only [DynamicAllocator.deallocate, hf] at h
      have hget : d.blocks[L.length]? = some (Block.Used off len) := by
        rw [hb]; exact getElem?_append_cons L (Block.Used off len) R
      simp only [hget] at h
      obtain rfl := Option.some.inj h
      have hset : d.blocks.set L.length (Block.Free off len) =
          L ++ Block.Free off len :: R := by
        rw [hb]; exact set_append_cons L (Block.Used off len) (Block.Free off len) R
      rw [hb, blockSum_append, blockSum_cons] at hsum
      simp only [blockLen] at hsum
      rw [hb] at hchain
      obtain ⟨hCL, hC2, _⟩ := List.chain'_append.1 hchain
      constructor
      · show blockSum (merge_free_blocks (d.blocks.set L.length (Block.Free off len))
          L.length) = S
        rw [hset, merge_free_blocks_sum, blockSum_append, blockSum_cons]
        simp only [blockLen]
        omega
      · show List.Chain' NotBothFree
          (merge_free_blocks (d.blocks.set L.length (Block.Free off len)) L.length)
        rw [hset]
        exact merge_free_blocks_chain L off len R hCL (List.chain'_cons'.1 hC2).2

theorem dynInv_runOps {S : Nat} : ∀ (ops : List DynOp) (d d2 : DynamicAllocator),
    DynInv S d → DynamicAllocator.runOps d ops = some d2 → DynInv S d2 := by
  intro ops
  induction ops with
  | nil =>
    intro d d2 hI h
    obtain rfl := Option.some.inj h
    exact hI
  | cons op ops ih =>
    intro d d2 hI h
    rw [show DynamicAllocator.runOps d (op :: ops) =
        (match d.step op with
         | none => none
         | some d3 => DynamicAllocator.runOps d3 ops) from rfl] at h
    cases hs : d.step op with
    | none =>
      simp only [hs] at h
      cases h
    | some d3 =>
      simp only [hs] at h
      exact ih d3 d2 (dynInv_step hI hs) h

/-- Claim C3: for every `DynamicAllocator` created over a region of size
`S` (any granularity `g`) and every successful interleaving of
`allocate`, `allocate_back` and `deallocate` operations, the sizes of all
`Free` and `Used` blocks sum to `S` after every operation, and no two
adjacent `Free` blocks exist in the block list after any operation — in
particular after every `deallocate` call (adjacent free blocks are
merged). -/
theorem dynamic_allocator_sum_and_merge (S g : Nat) (ops : List DynOp)
    (d : DynamicAllocator)
    (h : DynamicAllocator.runOps (DynamicAllocator.new S g) ops = some d) :
    blockSum d.blocks = S ∧ noAdjFree d.blocks = true := by
  have h0 : DynInv S (DynamicAllocator.new S g) := by
    constructor
    · simp [DynamicAllocator.new, blockSum, blockLen]
    · exact List.chain'_singleton _
  have hI := dynInv_runOps ops (DynamicAllocator.new S g) d h0 h
  exact ⟨hI.1, (noAdjFree_iff_chain d.blocks).2 hI.2⟩

/-- Witness for `dynamic_allocator_sum_and_merge`: over a 1024-byte region
with granularity 64, `allocate(100)` (offset 0, aligned size 128),
`allocate_back(200)` (offset 768, aligned size 256) and `deallocate(0)`
leave the blocks `[Free 0 768, Used 768 256]`, which sum to 1024 with no
adjacent frees — the freed 128-byte block merged with the middle free
extent. -/
theorem dynamic_allocator_sum_and_merge_witness :
    blockSum (DynamicAllocator.mk 64 [Block.Free 0 768, Block.Used 768 256]).blocks
        = 1024 ∧
    noAdjFree (DynamicAllocator.mk 64
        [Block.Free 0 768, Block.Used 768 256]).blocks = true :=
  dynamic_allocator_sum_and_merge 1024 64
    [DynOp.alloc 100, DynOp.allocBack 200, DynOp.dealloc 0]
    (DynamicAllocator.mk 64 [Block.Free 0 768, Block.Used 768 256]) (by decide)

/-! ## DynamicAllocator: divisibility of block sizes (claim C2) -/

theorem two_pow_dvd_land_high {w k : Nat} (hk : k ≤ w) (x : Nat) :
    2 ^ k ∣ x &&& (2 ^ w - 2 ^ k) := by
  apply Nat.dvd_of_mod_eq_zero
  rw [← Nat.and_pow_two_sub_one_eq_mod]
  apply Nat.eq_of_testBit_eq
  intro j
  have hmask : (2 ^ w - 2 ^ k : Nat) = (2 ^ (w - k) - 1) <<< k := by
    rw [Nat.shiftLeft_eq, Nat.sub_mul, one_mul, ← Nat.pow_add]
    congr 2
    omega
  simp only [hmask, Nat.testBit_land, Nat.testBit_shiftLeft,
    Nat.testBit_two_pow_sub_one, Nat.zero_testBit]
  by_cases hj : j < k
  · simp [hj, show ¬ k ≤ j by omega]
  · simp [hj]

theorem dvd_align {k : Nat} (hk : k ≤ 64) (s : Nat) : 2 ^ k ∣ align s (2 ^ k) := by
  unfold align alignBits
  by_cases h0 : s = 0 ∨ s % 2 ^ k = 0
  · rw [if_pos h0]
    rcases h0 with rfl | hm
    · exact dvd_zero _
    · exact Nat.dvd_of_mod_eq_zero hm
  · rw [if_neg h0]
    exact dvd_add (two_pow_dvd_land_high hk s) dvd_rfl

theorem align_le_of_dvd {k : Nat} (hk : k ≤ 64) {s len : Nat} (hs64 : s < 2 ^ 64)
    (hlen : 2 ^ k ∣ len) (hsl : s ≤ len) : align s (2 ^ k) ≤ len := by
  unfold align alignBits
  by_cases h0 : s = 0 ∨ s % 2 ^ k = 0
  · rw [if_pos h0]; exact hsl
  · rw [if_neg h0]
    push_neg at h0
    obtain ⟨hs0, hsm⟩ := h0
    rw [land_high_mask s hs64 hk]
    obtain ⟨m, rfl⟩ := hlen
    have hpos : 0 < 2 ^ k := Nat.two_pow_pos k
    have hne : s ≠ 2 ^ k * m := by
      intro he
      apply hsm
      rw [he, Nat.mul_mod_right]
    have hlt : s < 2 ^ k * m := lt_of_le_of_ne hsl hne
    have hq : s / 2 ^ k < m := by
      rw [Nat.div_lt_iff_lt_mul hpos]
      exact Nat.mul_comm (2 ^ k) m ▸ hlt
    calc s / 2 ^ k * 2 ^ k + 2 ^ k = (s / 2 ^ k + 1) * 2 ^ k := by ring
      _ ≤ m * 2 ^ k := Nat.mul_le_mul_right _ hq
      _ = 2 ^ k * m := Nat.mul_comm _ _

theorem mergeForward_dvd (g : Nat) : ∀ (fuel : Nat) (bs : List Block),
    (∀ b ∈ bs, g ∣ blockLen b) → ∀ b ∈ mergeForward fuel bs, g ∣ blockLen b := by
  intro fuel
  induction fuel with
  | zero =>
    intro bs h
    rcases bs with _ | ⟨b1, _ | ⟨b2, rest⟩⟩
    · intro b hb; exact h b hb
    · intro b hb; cases b1 <;> exact h b hb
    · intro b hb; cases b1 <;> cases b2 <;> exact h b hb
  | succ f ih =>
    intro bs h
    rcases bs with _ | ⟨b1, _ | ⟨b2, rest⟩⟩
    · intro b hb; exact h b hb
    · intro b hb; cases b1 <;> exact h b hb
    · cases b1 with
      | Used o l => intro b hb; cases b2 <;> exact h b hb
      | Free o l =>
        cases b2 with
        | Used o2 l2 => intro b hb; exact h b hb
        | Free o2 l2 =>
          intro b hb
          refine ih (Block.Free o (l + l2) :: rest) ?_ b hb
          intro b2 hb2
          rcases List.mem_cons.1 hb2 with rfl | hmem
          · show g ∣ l + l2
            exact dvd_add (h (Block.Free o l) (by simp)) (h (Block.Free o2 l2) (by simp))
          · exact h b2 (by simp [hmem])

theorem merge_free_blocks_dvd (g : Nat) (blocks : List Block) (i : Nat)
    (h : ∀ b ∈ blocks, g ∣ blockLen b) :
    ∀ b ∈ merge_free_blocks blocks i, g ∣ blockLen b := by
  unfold merge_free_blocks
  intro b hb
  rcases List.mem_append.1 hb with hbt | hbm
  · exact h b (List.take_subset _ _ hbt)
  · exact mergeForward_dvd g blocks.length (blocks.drop (walkBack blocks i))
      (fun b2 hb2 => h b2 (List.drop_subset _ _ hb2)) b hbm

theorem dynDvd_step {k : Nat} (hk : k ≤ 64) {d d2 : DynamicAllocator} {op : DynOp}
    (hg : d.granularity = 2 ^ k) (hdvd : DvdInv (2 ^ k) d)
    (h : d.step op = some d2) :
    d2.granularity = 2 ^ k ∧ DvdInv (2 ^ k) d2 := by
  cases op with
  | alloc s =>
    simp only [DynamicAllocator.step] at h
    obtain ⟨⟨r, d3⟩, hall, hsnd⟩ := Option.map_eq_some'.1 h
    obtain rfl : d3 = d2 := hsnd
    cases hf : find_first_free_block s d.blocks with
    | none =>
      simp only [DynamicAllocator.allocate, hf] at hall
      injection hall with h1
      injection h1 with hr hd
      subst hd
      exact ⟨hg, hdvd⟩
    | some i =>
      simp only [DynamicAllocator.allocate, hf] at hall
      obtain ⟨L, o, len, R, hb, hi, hslen⟩ := find_first_free_spec d.blocks s i hf
      subst hi
      by_cases hal : align s d.granularity ≤ len
      · rw [split_and_insert_spec d L o len R s hb hal] at hall
        injection hall with h1
        injection h1 with hr hd
        subst hd
        refine ⟨hg, ?_⟩
        have hasz : 2 ^ k ∣ align s d.granularity := by
          rw [hg]; exact dvd_align hk s
        have hflen : 2 ^ k ∣ len := hdvd (Block.Free o len) (by rw [hb]; simp)
        intro b hmem
        show 2 ^ k ∣ blockLen b
        by_cases h0 : 0 < len - align s d.granularity
        · rw [if_pos h0] at hmem
          rcases List.mem_append.1 hmem with hbL | hbR
          · exact hdvd b (by rw [hb]; exact List.mem_append_left _ hbL)
          · rcases List.mem_cons.1 hbR with rfl | hbR2
            · exact hasz
            · rcases List.mem_cons.1 hbR2 with rfl | hbR3
              · exact Nat.dvd_sub' hflen hasz
              · exact hdvd b
                  (by rw [hb]; exact List.mem_append_right _ (List.mem_cons_of_mem _ hbR3))
        · rw [if_neg h0] at hmem
          rcases List.mem_append.1 hmem with hbL | hbR
          · exact hdvd b (by rw [hb]; exact List.mem_append_left _ hbL)
          · rcases List.mem_cons.1 hbR with rfl | hbR2
            · exact hasz
            · exact hdvd b
                (by rw [hb]; exact List.mem_append_right _ (List.mem_cons_of_mem _ hbR2))
      · have hnone : d.split_and_insert_block L.length s = none := by
          simp only [DynamicAllocator.split_and_insert_block, hb, getElem?_append_cons]
          rw [if_neg hal]
        rw [hnone] at hall
        cases hall
  | allocBack s =>
    simp only [DynamicAllocator.step] at h
    obtain ⟨⟨r, d3⟩, hall, hsnd⟩ := Option.map_eq_some'.1 h
    obtain rfl : d3 = d2 := hsnd
    cases hf : find_last_free_block s d.blocks with
    | none =>
      simp only [DynamicAllocator.allocate_back, hf] at hall
      injection hall with h1
      injection h1 with hr hd
      subst hd
      exact ⟨hg, hdvd⟩
    | some i =>
      simp only [DynamicAllocator.allocate_back, hf] at hall
      obtain ⟨L, o, len, R, hb, hi, hslen⟩ := find_last_free_spec d.blocks s i hf
      subst hi
      by_cases hal : align s d.granularity ≤ len
      · rw [split_and_insert_end_spec d L o len R s hb hal] at hall
        injection hall with h1
        injection h1 with hr hd
        subst hd
        refine ⟨hg, ?_⟩
        have hasz : 2 ^ k ∣ align s d.granularity := by
          rw [hg]; exact dvd_align hk s
        have hflen : 2 ^ k ∣ len := hdvd (Block.Free o len) (by rw [hb]; simp)
        intro b hmem
        show 2 ^ k ∣ blockLen b
        by_cases h0 : 0 < len - align s d.granularity
        · rw [if_pos h0] at hmem
          rcases List.mem_append.1 hmem with hbL | hbR
          · exact hdvd b (by rw [hb]; exact List.mem_append_left _ hbL)
          · rcases List.mem_cons.1 hbR with rfl | hbR2
            · exact Nat.dvd_sub' hflen hasz
            · rcases List.mem_cons.1 hbR2 with rfl | hbR3
              · exact hasz
              · exact hdvd b
                  (by rw [hb]; exact List.mem_append_right _ (List.mem_cons_of_mem _ hbR3))
        · rw [if_neg h0] at hmem
          rcases List.mem_append.1 hmem with hbL | hbR
          · exact hdvd b (by rw [hb]; exact List.mem_append_left _ hbL)
          · rcases List.mem_cons.1 hbR with rfl | hbR2
            · exact hasz
            · exact hdvd b
                (by rw [hb]; exact List.mem_append_right _ (List.mem_cons_of_mem _ hbR2))
      · have hnone : d.split_and_insert_block_end L.length s = none := by
          simp only [DynamicAllocator.split_and_insert_block_end, hb, getElem?_append_cons]
          rw [if_neg hal]
        rw [hnone] at hall
        cases hall
  | dealloc off =>
    simp only [DynamicAllocator.step] at h
    cases hf : find_used_block off d.blocks with
    | none =>
      simp only [DynamicAllocator.deallocate, hf] at h
      cases h
    | some i =>
      obtain ⟨L, len, R, hb, hi⟩ := find_used_spec d.blocks off i hf
      subst hi
      simp only [DynamicAllocator.deallocate, hf] at h
      have hget : d.blocks[L.length]? = some (Block.Used off len) := by
        rw [hb]; exact getElem?_append_cons L (Block.Used off len) R
      simp only [hget] at h
      obtain rfl := Option.some.inj h
      have hset : d.blocks.set L.length (Block.Free off len) =
          L ++ Block.Free off len :: R := by
        rw [hb]; exact set_append_cons L (Block.Used off len) (Block.Free off len) R
      refine ⟨hg, ?_⟩
      intro b hmem
      show 2 ^ k ∣ blockLen b
      refine merge_free_blocks_dvd (2 ^ k)
        (d.blocks.set L.length (Block.Free off len)) L.length ?_ b hmem
      rw [hset]
      intro b2 hb2
      rcases List.mem_append.1 hb2 with hbL | hbR
      · exact hdvd b2 (by rw [hb]; exact List.mem_append_left _ hbL)
      · rcases List.mem_cons.1 hbR with rfl | hbR2
        · exact hdvd (Block.Used off len) (by rw [hb]; simp)
        · exact hdvd b2
            (by rw [hb]; exact List.mem_append_right _ (List.mem_cons_of_mem _ hbR2))

theorem dynDvd_runOps {k : Nat} (hk : k ≤ 64) : ∀ (ops : List DynOp)
    (d d2 : DynamicAllocator), d.granularity = 2 ^ k → DvdInv (2 ^ k) d →
    DynamicAllocator.runOps d ops = some d2 →
    d2.granularity = 2 ^ k ∧ DvdInv (2 ^ k) d2 := by
  intro ops
  induction ops with
  | nil =>
    intro d d2 hg hdvd h
    obtain rfl := Option.some.inj h
    exact ⟨hg, hdvd⟩
  | cons op ops ih =>
    intro d d2 hg hdvd h
    rw [show DynamicAllocator.runOps d (op :: ops) =
        (match d.step op with
         | none => none
         | some d3 => DynamicAllocator.runOps d3 ops) from rfl] at h
    cases hs : d.step op with
    | none =>
      simp only [hs] at h
      cases h
    | some d3 =>
      simp only [hs] at h
      obtain ⟨hg3, hdvd3⟩ := dynDvd_step hk hg hdvd hs
      exact ih d3 d2 hg3 hdvd3 h

/-- Claim C2 counterexample: `DynamicAllocator::new(10, 64)` holds the
single free extent `Free 0 10`; `allocate(10)` selects it by the raw size
comparison `10 >= 10`, but the split helper then asserts the aligned size
`align(10, 64) = 64 <= 10`, which fails.  The outer `none` is the
`assert!` panic, not a recoverable `None` return. -/
theorem dynamic_allocator_allocate_panics :
    DynamicAllocator.allocate (DynamicAllocator.new 10 64) 10 = none := by decide

/-- Claim C2 (amended): when the granularity is a power of two `2^k`
(`k ≤ 64`) dividing the region size — every free extent's length then
stays a multiple of the granularity — `allocate` never hits the
raw-versus-aligned `assert!` panic on any reachable state: for any
requested `size < 2^64` it returns `some` — either a carved offset or the
recoverable no-fit `None`. -/
theorem dynamic_allocator_allocate_total (k S : Nat) (ops : List DynOp)
    (d : DynamicAllocator) (size : Nat) (hk : k ≤ 64) (hS : 2 ^ k ∣ S)
    (h : DynamicAllocator.runOps (DynamicAllocator.new S (2 ^ k)) ops = some d)
    (hsize : size < 2 ^ 64) :
    ∃ r, d.allocate size = some r := by
  have hinit : (DynamicAllocator.new S (2 ^ k)).granularity = 2 ^ k := rfl
  have hinitd : DvdInv (2 ^ k) (DynamicAllocator.new S (2 ^ k)) := by
    intro b hb
    simp only [DynamicAllocator.new, List.mem_singleton] at hb
    subst hb
    exact hS
  obtain ⟨hg, hdvd⟩ := dynDvd_runOps hk ops (DynamicAllocator.new S (2 ^ k)) d
    hinit hinitd h
  cases hf : find_first_free_block size d.blocks with
  | none =>
    exact ⟨(none, d), by simp only [DynamicAllocator.allocate, hf]⟩
  | some i =>
    obtain ⟨L, o, len, R, hb, hi, hslen⟩ := find_first_free_spec d.blocks size i hf
    subst hi
    have hlen : 2 ^ k ∣ len := hdvd (Block.Free o len) (by rw [hb]; simp)
    have hal : align size d.granularity ≤ len := by
      rw [hg]
      exact align_le_of_dvd hk hsize hlen hslen
    have hstep : d.allocate size = d.split_and_insert_block L.length size := by
      simp only [DynamicAllocator.allocate, hf]
    rw [hstep, split_and_insert_spec d L o len R size hb hal]
    exact ⟨_, rfl⟩

/-- Witness for `dynamic_allocator_allocate_total`: granularity `64 = 2^6`
divides the region size 1024, so on the freshly created allocator a
10-byte request is served (it does not panic). -/
theorem dynamic_allocator_allocate_total_witness :
    ∃ r, (DynamicAllocator.new 1024 (2 ^ 6)).allocate 10 = some r :=
  dynamic_allocator_allocate_total 6 1024 [] (DynamicAllocator.new 1024 (2 ^ 6)) 10
    (by decide) (by decide) rfl (by decide)

end Kiri
